import Mathlib

/-!
Verification development for the NexusMRP planning kernel.

Shallow embedding conventions:
* `Quantity` (rust_decimal::Decimal, a fixed-precision decimal) is embedded
  as `ℚ`: the embedding needs `+ - * / % min max` and order, all exact on
  the decimal values the kernel manipulates.
* `Date` (chrono::NaiveDate) is embedded as `ℤ`, counting days from an
  epoch chosen so that day 0 is a Monday (e.g. 2025-12-01); `succ`/`pred`
  are `+1`/`-1`, day difference is subtraction, and the weekday index used
  by `WorkCalendar` (Monday = 0 .. Sunday = 6) is `d % 7`.
* `Uuid::new_v4()` (a fresh random identifier) is embedded as a `Nat` tag:
  inputs carry caller-chosen tags and the kernel assigns fresh numbers from
  a counter; no verified property depends on identifier values.
* Functions returning `mrp_core::Result` are embedded with `Except MrpError`
  when an error path exists in the source, and as plain functions when the
  source always returns `Ok`.
-/

namespace NexusMRP

/-- Demand kinds, from mrp-core/src/demand.rs `DemandType`. -/
inductive DemandType where
  | SalesOrder
  | Forecast
  | SafetyStock
  | Dependent
deriving DecidableEq, Repr

/-- Supply kinds, from mrp-core/src/supply.rs `SupplyType`. -/
inductive SupplyType where
  | OnHand
  | PurchaseOrder
  | WorkOrder
  | Transfer
  | PlannedOrder
deriving DecidableEq, Repr

/-- Procurement kinds, from mrp-core/src/config.rs `ProcurementType`. -/
inductive ProcurementType where
  | Buy
  | Make
  | Transfer
deriving DecidableEq, Repr

/-- Lot-sizing policies, from mrp-core/src/config.rs `LotSizingRule`. -/
inductive LotSizingRule where
  | LotForLot
  | FixedOrderQuantity
  | EconomicOrderQuantity
  | PeriodOrderQuantity
  | MinMax
deriving DecidableEq, Repr

/-- Planned-order kinds, from mrp-core/src/plan.rs `PlannedOrderType`. -/
inductive PlannedOrderType where
  | Purchase
  | Production
  | Transfer
deriving DecidableEq, Repr

/-- Error kinds, from mrp-core/src/lib.rs `MrpError` (messages carried as strings). -/
inductive MrpError where
  | ConfigNotFound (component : String)
  | BomExplosionError (msg : String)
  | TopologicalSortError (msg : String)
  | MissingLotSize
  | InvalidDate (msg : String)
  | CalculationError (msg : String)
  | Other (msg : String)
deriving DecidableEq, Repr

/-- Demand record, from mrp-core/src/demand.rs `Demand`. -/
structure Demand where
  id : Nat
  component_id : String
  quantity : ℚ
  required_date : ℤ
  demand_type : DemandType
  source_ref : Option String
  priority : Nat
  plant_id : Option String
deriving DecidableEq, Repr

/-- Supply record, from mrp-core/src/supply.rs `Supply`. -/
structure Supply where
  id : Nat
  component_id : String
  quantity : ℚ
  available_date : ℤ
  supply_type : SupplyType
  source_ref : Option String
  is_firm : Bool
deriving DecidableEq, Repr

/-- Inventory record, from mrp-core/src/inventory.rs `Inventory`. -/
structure Inventory where
  component_id : String
  on_hand_qty : ℚ
  safety_stock : ℚ
  allocated_qty : ℚ
  available_qty : ℚ
  warehouse_id : Option String
deriving DecidableEq, Repr

/-- Per-item MRP parameters, from mrp-core/src/config.rs `MrpConfig`. -/
structure MrpConfig where
  component_id : String
  lead_time_days : Nat
  lot_sizing_rule : LotSizingRule
  fixed_lot_size : Option ℚ
  minimum_order_qty : Option ℚ
  maximum_order_qty : Option ℚ
  order_multiple : Option ℚ
  safety_stock : ℚ
  planning_horizon_days : Nat
  procurement_type : ProcurementType
  mrp_enabled : Bool
  allow_negative_inventory : Bool
deriving DecidableEq, Repr

/-- Pegging record, from mrp-core/src/plan.rs `PeggingRecord`. -/
structure PeggingRecord where
  demand_id : Nat
  quantity : ℚ
  path : List String
deriving DecidableEq, Repr

/-- Planned order, from mrp-core/src/plan.rs `PlannedOrder`. -/
structure PlannedOrder where
  id : Nat
  component_id : String
  quantity : ℚ
  required_date : ℤ
  order_date : ℤ
  order_type : PlannedOrderType
  source_id : Option String
  pegging : List PeggingRecord
deriving DecidableEq, Repr

/-- Constructor `PlannedOrder::new` (fresh id passed explicitly, see header note). -/
def PlannedOrder.mk' (id : Nat) (component_id : String) (quantity : ℚ)
    (required_date order_date : ℤ) (order_type : PlannedOrderType) : PlannedOrder :=
  ⟨id, component_id, quantity, required_date, order_date, order_type, none, []⟩

/-- Working calendar, from mrp-core/src/calendar.rs `WorkCalendar`:
a 7-entry weekday mask (index 0 = Monday) plus a holiday list. -/
structure WorkCalendar where
  working_days : Fin 7 → Bool
  holidays : List ℤ
  calendar_id : String

/-- Weekday index of a day number: day 0 is a Monday, so the index is `d % 7`. -/
def weekdayIndex (d : ℤ) : Fin 7 :=
  ⟨(d % 7).toNat, by omega⟩

namespace WorkCalendar

/-- `WorkCalendar::is_working_day`: not a holiday, and the weekday mask is set. -/
def isWorkingDay (cal : WorkCalendar) (d : ℤ) : Bool :=
  if cal.holidays.contains d then false
  else cal.working_days (weekdayIndex d)

/-- Fuel-metered translation of the loop in `WorkCalendar::add_working_days`:
one unit of fuel per day stepped; `none` when the budget of day steps is
exhausted, mirroring the fact that the Rust loop runs forever on a calendar
with no working day. -/
def addWorkingDaysF (cal : WorkCalendar) : Nat → ℤ → Nat → Option ℤ
  | _, current, 0 => some current
  | 0, _, _ + 1 => none
  | fuel + 1, current, remaining + 1 =>
      if cal.isWorkingDay (current + 1) then
        addWorkingDaysF cal fuel (current + 1) remaining
      else
        addWorkingDaysF cal fuel (current + 1) (remaining + 1)

/-- Fuel-metered translation of the loop in `WorkCalendar::subtract_working_days`. -/
def subtractWorkingDaysF (cal : WorkCalendar) : Nat → ℤ → Nat → Option ℤ
  | _, current, 0 => some current
  | 0, _, _ + 1 => none
  | fuel + 1, current, remaining + 1 =>
      if cal.isWorkingDay (current - 1) then
        subtractWorkingDaysF cal fuel (current - 1) remaining
      else
        subtractWorkingDaysF cal fuel (current - 1) (remaining + 1)

/-- The mask has at least one working weekday: exactly the condition under
which the source's calendar walks terminate. -/
def hasWorkingDay (cal : WorkCalendar) : Prop :=
  ∃ j : Fin 7, cal.working_days j = true

instance (cal : WorkCalendar) : Decidable cal.hasWorkingDay :=
  inferInstanceAs (Decidable (∃ j : Fin 7, cal.working_days j = true))

/-- Largest holiday, with `d` as a floor (helper for the scan bound below). -/
def holidayMax (cal : WorkCalendar) (d : ℤ) : ℤ :=
  cal.holidays.foldr (fun h m => max h m) d

/-- Upward-scan budget: from day `c`, a working day is guaranteed within this
many days whenever the mask has a working weekday (7 days past all holidays). -/
def scanBound (cal : WorkCalendar) (c : ℤ) : Nat :=
  8 + (cal.holidayMax c - c).toNat

/-- Bounded upward scan for the first working day at or after the current day. -/
def nextWorkingAux (cal : WorkCalendar) : Nat → ℤ → ℤ
  | 0, c => c
  | fuel + 1, c => if cal.isWorkingDay c then c else nextWorkingAux cal fuel (c + 1)

/-- First working day `≥ c` (total form; meaningful whenever `hasWorkingDay`). -/
def nextWorkingGe (cal : WorkCalendar) (c : ℤ) : ℤ :=
  nextWorkingAux cal (cal.scanBound c) c

/-- Smallest holiday, with `d` as a ceiling (helper for the downward scan bound). -/
def holidayMin (cal : WorkCalendar) (d : ℤ) : ℤ :=
  cal.holidays.foldr (fun h m => min h m) d

/-- Downward-scan budget, mirror of `scanBound`. -/
def scanBoundDown (cal : WorkCalendar) (c : ℤ) : Nat :=
  8 + (c - cal.holidayMin c).toNat

/-- Bounded downward scan for the first working day at or before the current day. -/
def prevWorkingAux (cal : WorkCalendar) : Nat → ℤ → ℤ
  | 0, c => c
  | fuel + 1, c => if cal.isWorkingDay c then c else prevWorkingAux cal fuel (c - 1)

/-- Last working day `≤ c` (total form; meaningful whenever `hasWorkingDay`). -/
def prevWorkingLe (cal : WorkCalendar) (c : ℤ) : ℤ :=
  prevWorkingAux cal (cal.scanBoundDown c) c

/-- Total form of `WorkCalendar::add_working_days`: the value the Rust loop
returns whenever it terminates (equivalence with `addWorkingDaysF` is proved
below); the walk advances to the next working day `n` times. -/
def addWorkingDays (cal : WorkCalendar) (d : ℤ) : Nat → ℤ
  | 0 => d
  | n + 1 => cal.addWorkingDays (cal.nextWorkingGe (d + 1)) n

/-- Total form of `WorkCalendar::subtract_working_days`, mirror of
`addWorkingDays`. -/
def subtractWorkingDays (cal : WorkCalendar) (d : ℤ) : Nat → ℤ
  | 0 => d
  | n + 1 => cal.subtractWorkingDays (cal.prevWorkingLe (d - 1)) n

/-- `WorkCalendar::new_24_7`: all-true mask, no holidays. -/
def new24_7 (calendar_id : String) : WorkCalendar :=
  ⟨fun _ => true, [], calendar_id⟩

/-- `WorkCalendar::new`: Monday to Friday working, no holidays. -/
def newDefault (calendar_id : String) : WorkCalendar :=
  ⟨fun j => j.val < 5, [], calendar_id⟩

end WorkCalendar

/-- Net-requirement record, from mrp-calc/src/netting.rs `NetRequirement`. -/
structure NetRequirement where
  date : ℤ
  gross_requirement : ℚ
  scheduled_receipt : ℚ
  projected_on_hand : ℚ
  net_requirement : ℚ
deriving DecidableEq, Repr

namespace NettingCalculator

/-- Gross requirement at a date: sum of quantities of demands required then
(the filter-map-sum inside `NettingCalculator::calculate`). -/
def grossAt (demands : List Demand) (date : ℤ) : ℚ :=
  (demands.filter (fun d => d.required_date = date)).foldr (fun d a => d.quantity + a) 0

/-- Scheduled receipt at a date: sum of quantities of supplies available then. -/
def receiptAt (supplies : List Supply) (date : ℤ) : ℚ :=
  (supplies.filter (fun s => s.available_date = date)).foldr (fun s a => s.quantity + a) 0

/-- The bucket loop of `NettingCalculator::calculate`: one record per bucket,
carrying `current_inventory` across buckets. -/
def nettingGo (demands : List Demand) (supplies : List Supply)
    (safety_stock : ℚ) (allow_negative_inventory : Bool) :
    ℚ → List ℤ → List NetRequirement
  | _, [] => []
  | current_inventory, date :: rest =>
      let gross_req := grossAt demands date
      let scheduled_receipt := receiptAt supplies date
      let projected_on_hand := current_inventory + scheduled_receipt - gross_req
      let net_req :=
        if allow_negative_inventory then
          if projected_on_hand < 0 then -projected_on_hand else 0
        else
          if projected_on_hand < safety_stock then safety_stock - projected_on_hand else 0
      ⟨date, gross_req, scheduled_receipt, projected_on_hand, net_req⟩ ::
        nettingGo demands supplies safety_stock allow_negative_inventory
          projected_on_hand rest

/-- Translation of `NettingCalculator::calculate` (the source wraps the result
in `Ok` with no error path, so the embedding returns the list directly). -/
def calculate (demands : List Demand) (supplies : List Supply)
    (initial_inventory safety_stock : ℚ) (time_buckets : List ℤ)
    (allow_negative_inventory : Bool) : List NetRequirement :=
  nettingGo demands supplies safety_stock allow_negative_inventory
    initial_inventory time_buckets

/-- Projected on hand after consuming a list of buckets, written from the
spec's recurrence `P(t) = P(t−1) + R(t) − G(t)` seeded with the inventory
before the first bucket. -/
def pohAfter (demands : List Demand) (supplies : List Supply) :
    ℚ → List ℤ → ℚ
  | inv, [] => inv
  | inv, t :: rest =>
      pohAfter demands supplies (inv + receiptAt supplies t - grossAt demands t) rest

end NettingCalculator

/-- Truncation toward zero, the rounding used by `rust_decimal`'s `%`. -/
def ratTrunc (q : ℚ) : ℤ :=
  if 0 ≤ q then ⌊q⌋ else ⌈q⌉

/-- Remainder `a % b` with the semantics of `rust_decimal` (sign of the
dividend, truncated division). -/
def ratMod (a b : ℚ) : ℚ :=
  a - b * (ratTrunc (a / b) : ℚ)

namespace MrpConfig

/-- Translation of `MrpConfig::adjust_order_quantity`: raise to `minimum_order_qty`,
round up to the next `order_multiple`, then cap at `maximum_order_qty`. -/
def adjust_order_quantity (cfg : MrpConfig) (quantity : ℚ) : ℚ :=
  let q1 :=
    match cfg.minimum_order_qty with
    | some min_qty => if quantity < min_qty then min_qty else quantity
    | none => quantity
  let q2 :=
    match cfg.order_multiple with
    | some multiple =>
        if 0 < multiple then
          let remainder := ratMod q1 multiple
          if 0 < remainder then q1 - remainder + multiple else q1
        else q1
    | none => q1
  match cfg.maximum_order_qty with
  | some max_qty => if max_qty < q2 then max_qty else q2
  | none => q2

/-- Translation of `MrpConfig::needs_mrp`. -/
def needs_mrp (cfg : MrpConfig) : Bool :=
  cfg.mrp_enabled

end MrpConfig

namespace LotSizingCalculator

/-- Translation of `LotSizingCalculator::determine_order_type`. -/
def determineOrderType : ProcurementType → PlannedOrderType
  | .Buy => .Purchase
  | .Make => .Production
  | .Transfer => .Transfer

/-- Number of fixed lots covering a shortage:
`ratio.ceil().to_string().parse::<u32>().unwrap_or(1)` in the source —
the parse fails (and falls back to 1) outside the `u32` range. -/
def batchesNeeded (rq : ℚ) : Nat :=
  let c := ⌈rq⌉
  if 0 ≤ c ∧ c ≤ 4294967295 then c.toNat else 1

/-- Translation of `LotSizingCalculator::lot_for_lot`: one order per bucket
with positive net requirement (the source wraps the list in `Ok` with no
error path). -/
def lot_for_lot (component_id : String) (net_requirements : List NetRequirement)
    (config : MrpConfig) (calendar : WorkCalendar) : List PlannedOrder :=
  net_requirements.foldl
    (fun planned_orders req =>
      if 0 < req.net_requirement then
        let order_date := calendar.subtractWorkingDays req.date config.lead_time_days
        let quantity := config.adjust_order_quantity req.net_requirement
        planned_orders ++
          [PlannedOrder.mk' 0 component_id quantity req.date order_date
            (determineOrderType config.procurement_type)]
      else planned_orders)
    []

/-- Shared running-inventory loop of `fixed_order_quantity` and
`economic_order_quantity` (identical in the source up to the lot size used):
state is `(remaining_inventory, planned_orders)`. -/
def runLotLoop (component_id : String) (lot_size : ℚ)
    (net_requirements : List NetRequirement) (config : MrpConfig)
    (calendar : WorkCalendar) : List PlannedOrder :=
  (net_requirements.foldl
    (fun (st : ℚ × List PlannedOrder) req =>
      let remaining_inventory := st.1 - req.gross_requirement + req.scheduled_receipt
      if remaining_inventory < config.safety_stock then
        let shortage := config.safety_stock - remaining_inventory
        let batches_needed := batchesNeeded (shortage / lot_size)
        let order_quantity := lot_size * (batches_needed : ℚ)
        let adjusted_quantity := config.adjust_order_quantity order_quantity
        let order_date := calendar.subtractWorkingDays req.date config.lead_time_days
        (remaining_inventory + adjusted_quantity,
          st.2 ++
            [PlannedOrder.mk' 0 component_id adjusted_quantity req.date order_date
              (determineOrderType config.procurement_type)])
      else (remaining_inventory, st.2))
    (0, [])).2

/-- Translation of `LotSizingCalculator::fixed_order_quantity`: requires
`fixed_lot_size`, else `MissingLotSize`. -/
def fixed_order_quantity (component_id : String)
    (net_requirements : List NetRequirement) (config : MrpConfig)
    (calendar : WorkCalendar) : Except MrpError (List PlannedOrder) :=
  match config.fixed_lot_size with
  | none => .error .MissingLotSize
  | some fixed_lot_size =>
      .ok (runLotLoop component_id fixed_lot_size net_requirements config calendar)

/-- Translation of `LotSizingCalculator::economic_order_quantity`.
`sqrtFn total` models the source's isolated floating-point step
`Decimal::try_from(total.to_string().parse::<f64>().sqrt() * 10.0).unwrap_or(100)`;
no verified claim depends on its value, so it is kept as a parameter. -/
def economic_order_quantity (sqrtFn : ℚ → ℚ) (component_id : String)
    (net_requirements : List NetRequirement) (config : MrpConfig)
    (calendar : WorkCalendar) : Except MrpError (List PlannedOrder) :=
  let eoq_size :=
    match config.fixed_lot_size with
    | some fixed_size => fixed_size
    | none =>
        let total_requirement :=
          net_requirements.foldr (fun r a => r.net_requirement + a) 0
        if 0 < total_requirement then sqrtFn total_requirement else 100
  .ok (runLotLoop component_id eoq_size net_requirements config calendar)

/-- Translation of the window loop in `LotSizingCalculator::period_order_quantity`:
each window collects the successive buckets within 7 days of its first bucket. -/
def poqGo (component_id : String) (config : MrpConfig) (calendar : WorkCalendar) :
    List NetRequirement → List PlannedOrder
  | [] => []
  | req0 :: rest =>
      let window := rest.takeWhile (fun r => decide (r.date - req0.date < 7))
      let later := rest.drop window.length
      let period_total :=
        req0.net_requirement + window.foldr (fun r a => r.net_requirement + a) 0
      let here :=
        if 0 < period_total then
          let adjusted_quantity := config.adjust_order_quantity period_total
          let order_date := calendar.subtractWorkingDays req0.date config.lead_time_days
          [PlannedOrder.mk' 0 component_id adjusted_quantity req0.date order_date
            (determineOrderType config.procurement_type)]
        else []
      here ++ poqGo component_id config calendar later
termination_by l => l.length
decreasing_by
  simp only [List.length_drop, List.length_cons]
  omega

/-- Translation of `LotSizingCalculator::period_order_quantity` (period fixed
at 7 days in the source). -/
def period_order_quantity (component_id : String)
    (net_requirements : List NetRequirement) (config : MrpConfig)
    (calendar : WorkCalendar) : Except MrpError (List PlannedOrder) :=
  .ok (poqGo component_id config calendar net_requirements)

/-- Translation of `LotSizingCalculator::min_max`: replenish to the max level
whenever the running inventory falls below the min level. -/
def min_max (component_id : String) (net_requirements : List NetRequirement)
    (config : MrpConfig) (calendar : WorkCalendar) :
    Except MrpError (List PlannedOrder) :=
  let min_level := config.minimum_order_qty.getD config.safety_stock
  let max_level := config.maximum_order_qty.getD (min_level * 2)
  .ok ((net_requirements.foldl
    (fun (st : ℚ × List PlannedOrder) req =>
      let current_inventory := st.1 - req.gross_requirement + req.scheduled_receipt
      if current_inventory < min_level then
        let order_quantity := max_level - current_inventory
        let adjusted_quantity := config.adjust_order_quantity order_quantity
        let order_date := calendar.subtractWorkingDays req.date config.lead_time_days
        (current_inventory + adjusted_quantity,
          st.2 ++
            [PlannedOrder.mk' 0 component_id adjusted_quantity req.date order_date
              (determineOrderType config.procurement_type)])
      else (current_inventory, st.2))
    (0, [])).2)

/-- Translation of `LotSizingCalculator::apply`: dispatch on the policy. -/
def apply (sqrtFn : ℚ → ℚ) (component_id : String)
    (net_requirements : List NetRequirement) (config : MrpConfig)
    (calendar : WorkCalendar) : Except MrpError (List PlannedOrder) :=
  match config.lot_sizing_rule with
  | .LotForLot => .ok (lot_for_lot component_id net_requirements config calendar)
  | .FixedOrderQuantity =>
      fixed_order_quantity component_id net_requirements config calendar
  | .EconomicOrderQuantity =>
      economic_order_quantity sqrtFn component_id net_requirements config calendar
  | .PeriodOrderQuantity =>
      period_order_quantity component_id net_requirements config calendar
  | .MinMax => min_max component_id net_requirements config calendar

end LotSizingCalculator

/-- Lookup in an association list, the embedding of `HashMap::get`. -/
def mapFind? {κ α : Type} [DecidableEq κ] : List (κ × α) → κ → Option α
  | [], _ => none
  | p :: rest, k => if p.1 = k then some p.2 else mapFind? rest k

/-- Insert-or-replace in an association list, the embedding of `HashMap::insert`
(later inserts of the same key overwrite). -/
def mapInsertReplace {κ α : Type} [DecidableEq κ] :
    List (κ × α) → κ → α → List (κ × α)
  | [], k, v => [(k, v)]
  | p :: rest, k, v =>
      if p.1 = k then (k, v) :: rest else p :: mapInsertReplace rest k v

/-- Append values to a list-valued entry, the embedding of
`map.entry(k).or_insert_with(Vec::new).extend(vs)` (new keys keep first-insertion
order; `HashMap` key iteration order is modelled separately where it matters). -/
def mapAppendEntry {κ α : Type} [DecidableEq κ] :
    List (κ × List α) → κ → List α → List (κ × List α)
  | [], k, vs => [(k, vs)]
  | p :: rest, k, vs =>
      if p.1 = k then (p.1, p.2 ++ vs) :: rest else p :: mapAppendEntry rest k vs

/-- Ascending insertion into a sorted list (helper for `sortDates`). -/
def insertSorted (x : ℤ) : List ℤ → List ℤ
  | [] => [x]
  | y :: rest => if x ≤ y then x :: y :: rest else y :: insertSorted x rest

/-- Ascending stable sort of a date list, the embedding of `Vec::sort` on
dates (insertion sort; only the sorted result matters). -/
def sortDates (l : List ℤ) : List ℤ :=
  l.foldr insertSorted []

namespace BucketingCalculator

/-- Translation of `BucketingCalculator::create_time_buckets`: the deduplicated
demand/supply dates, sorted (`planning_horizon_days` is accepted but unused). -/
def create_time_buckets (demands : List Demand) (supplies : List Supply)
    (_planning_horizon_days : Nat) : List ℤ :=
  let dates := demands.foldl
    (fun ds d => if ds.contains d.required_date then ds else ds ++ [d.required_date]) []
  let dates := supplies.foldl
    (fun ds s => if ds.contains s.available_date then ds else ds ++ [s.available_date]) dates
  (sortDates dates).dedup

end BucketingCalculator

/-- Pegging trace depth, from mrp-calc/src/pegging.rs `PeggingType`. -/
inductive PeggingType where
  | SingleLevel
  | MultiLevel
deriving DecidableEq, Repr

namespace PeggingCalculator

/-- Translation of `PeggingCalculator::trace_parent_demand` (the source is a
simplification that returns the parent reference without recursing). -/
def trace_parent_demand (parent_id : String) (_demands : List Demand) :
    Except MrpError (List String) :=
  .ok [parent_id]

/-- The consuming walk inside `PeggingCalculator::trace_demand_source`: peg
`min(demand.quantity, remaining)` to each matching demand, stopping once the
remaining quantity is `≤ 0`. -/
def traceGo (component_id : String) (pegging_type : PeggingType) :
    ℚ → List Demand → List PeggingRecord
  | _, [] => []
  | remaining, demand :: rest =>
      if remaining ≤ 0 then []
      else
        let pegged_qty := min demand.quantity remaining
        let path :=
          match pegging_type with
          | .SingleLevel => [component_id]
          | .MultiLevel =>
              if demand.demand_type = .Dependent then
                match demand.source_ref with
                | some parent_ref => [parent_ref, component_id]
                | none => [component_id]
              else [component_id]
        ⟨demand.id, pegged_qty, path⟩ :: traceGo component_id pegging_type (remaining - pegged_qty) rest

/-- Matching candidates for an order: same item, same required date. -/
def matchingDemands (demands : List Demand) (component_id : String) (date : ℤ) :
    List Demand :=
  demands.filter (fun d => decide (d.component_id = component_id ∧ d.required_date = date))

/-- Translation of `PeggingCalculator::trace_demand_source` (the multi-level
path comes from `trace_parent_demand`, which never fails, so the walk is pure). -/
def trace_demand_source (component_id : String) (quantity : ℚ) (date : ℤ)
    (demands : List Demand) (pegging_type : PeggingType) :
    Except MrpError (List PeggingRecord) :=
  .ok (traceGo component_id pegging_type quantity (matchingDemands demands component_id date))

/-- Loop of `PeggingCalculator::perform` over the planned orders, accumulating
the pegging map (the `?` operator on `trace_demand_source` is the error
match). -/
def performGo (original_demands : List Demand) (pegging_type : PeggingType) :
    List PlannedOrder → List (Nat × List PeggingRecord) →
    Except MrpError (List (Nat × List PeggingRecord))
  | [], pegging_map => .ok pegging_map
  | order :: rest, pegging_map =>
      match trace_demand_source order.component_id order.quantity
          order.required_date original_demands pegging_type with
      | .error e => .error e
      | .ok pegging =>
          performGo original_demands pegging_type rest
            (mapInsertReplace pegging_map order.id pegging)

/-- Translation of `PeggingCalculator::perform`: one map entry per planned
order, keyed by the order id. -/
def perform (planned_orders : List PlannedOrder) (original_demands : List Demand)
    (pegging_type : PeggingType) :
    Except MrpError (List (Nat × List PeggingRecord)) :=
  performGo original_demands pegging_type planned_orders []

end PeggingCalculator

/-- Modelled from the spec: one outgoing BOM edge, carrying the child item and
the per-assembly quantity (`edge.bom_item.quantity` of the external `bom-graph`
crate, whose sources are not part of this repository). -/
structure BomEdge where
  child : String
  quantity_per : ℚ
deriving DecidableEq, Repr

/-- Modelled from the spec: the read-only BOM graph interface of §6 — *find
node* plus *children of node* with per-edge quantity-per — embedded as a
finite adjacency list. The graph library itself (crates `bom-graph`/`bom-core`)
is outside this repository's sources. -/
structure BomGraph where
  nodes : List (String × List BomEdge)
deriving DecidableEq, Repr

/-- `find_node` composed with `children`: the children of an item, or `none`
when the item is absent from the graph. -/
def BomGraph.findChildren (g : BomGraph) (item : String) : Option (List BomEdge) :=
  mapFind? g.nodes item

/-- MRP calculator state, from mrp-calc/src/calculator.rs `MrpCalculator`
(`configs: HashMap<String, MrpConfig>` embedded as an association list). -/
structure MrpCalculator where
  bom_graph : BomGraph
  configs : List (String × MrpConfig)
  calendar : WorkCalendar

/-- Calculation result, from mrp-calc/src/lib.rs `MrpResult` (`warnings` —
never populated by `calculate` — and the wall-clock `calculation_time_ms`
are omitted). -/
structure MrpResult where
  planned_orders : List PlannedOrder
  pegging : List (Nat × List PeggingRecord)
deriving DecidableEq, Repr

namespace MrpCalculator

/-- Translation of `MrpCalculator::group_demands_by_component`. -/
def group_demands_by_component (demands : List Demand) :
    List (String × List Demand) :=
  demands.foldl (fun grouped d => mapAppendEntry grouped d.component_id [d]) []

/-- Translation of `MrpCalculator::group_supplies_by_component`. -/
def group_supplies_by_component (supplies : List Supply) :
    List (String × List Supply) :=
  supplies.foldl (fun grouped s => mapAppendEntry grouped s.component_id [s]) []

/-- Translation of `MrpCalculator::create_inventory_map` (a `collect` into a
`HashMap`: a later record for the same item overwrites an earlier one). -/
def create_inventory_map (inventories : List Inventory) :
    List (String × Inventory) :=
  inventories.foldl (fun m inv => mapInsertReplace m inv.component_id inv) []

/-- Translation of `MrpCalculator::get_max_planning_horizon`. -/
def get_max_planning_horizon (mc : MrpCalculator) : Nat :=
  ((mc.configs.map (fun p => p.2.planning_horizon_days)).max?).getD 90

/-- Translation of `MrpCalculator::topological_sort`: the source is a stub
(`// TODO: 整合 BOM 引擎的拓撲排序`) that returns `grouped_demands.keys()` —
an enumeration of the demand keys in `HashMap` iteration order — and never
fails; the nondeterministic enumeration is passed in as `hash_order`. -/
def topological_sort (_grouped_demands : List (String × List Demand))
    (hash_order : List String) : Except MrpError (List String) :=
  .ok hash_order

/-- Translation of `MrpCalculator::create_component_time_buckets`: the base
buckets merged with the item's demand and supply dates, deduplicated, sorted. -/
def create_component_time_buckets (base_time_buckets : List ℤ)
    (component_demands : List Demand) (component_supplies : List Supply) : List ℤ :=
  sortDates ((base_time_buckets ++ component_demands.map (fun d => d.required_date)
      ++ component_supplies.map (fun s => s.available_date)).dedup)

/-- Fresh-id assignment for newly created planned orders (`Uuid::new_v4()` at
each `PlannedOrder::new`, embedded as consecutive naturals from a counter). -/
def assignIds (counter : Nat) : List PlannedOrder → List PlannedOrder
  | [] => []
  | o :: rest => { o with id := counter } :: assignIds (counter + 1) rest

/-- The dependent demand built inside `MrpCalculator::explode_bom` for one
parent order and one BOM edge (`Demand::new` with kind `Dependent`,
`source_ref = "<parent>:<order id>"`; the priority expression
`order.pegging.first().map(|_p| 5).unwrap_or(5)` is 5 in both branches). -/
def mkDependentDemand (parent_id : String) (order : PlannedOrder)
    (child_id : String) (quantity_per : ℚ) : Demand :=
  ⟨0, child_id, order.quantity * quantity_per, order.order_date, .Dependent,
    some (parent_id ++ ":" ++ toString order.id), 5, none⟩

/-- Translation of `MrpCalculator::explode_bom`: group the dependent demands
of every (order, edge) pair by child item. The source's
`BomExplosionError` arises only from an arena-index lookup that cannot fail in
the adjacency-list model, so the embedding always returns `ok`. -/
def explode_bom (g : BomGraph) (parent_id : String)
    (planned_orders : List PlannedOrder) :
    Except MrpError (List (String × List Demand)) :=
  match planned_orders with
  | [] => .ok []
  | _ :: _ =>
      match g.findChildren parent_id with
      | none => .ok []
      | some [] => .ok []
      | some children =>
          .ok (planned_orders.foldl
            (fun child_demands order =>
              children.foldl
                (fun m e =>
                  mapAppendEntry m e.child
                    [mkDependentDemand parent_id order e.child e.quantity_per])
                child_demands)
            [])

/-- Translation of `MrpCalculator::calculate_component_mrp`, returning the
item's planned orders (the `ComponentMrpResult` wrapper carries no other data). -/
def calculate_component_mrp (mc : MrpCalculator) (sqrtFn : ℚ → ℚ)
    (component_id : String) (component_demands : List Demand)
    (grouped_supplies : List (String × List Supply))
    (inventory_map : List (String × Inventory)) (time_buckets : List ℤ) :
    Except MrpError (List PlannedOrder) :=
  match mapFind? mc.configs component_id with
  | none => .error (.ConfigNotFound component_id)
  | some config =>
      if !config.needs_mrp then .ok []
      else
        let component_supplies := (mapFind? grouped_supplies component_id).getD []
        let initial_inventory :=
          ((mapFind? inventory_map component_id).map (fun inv => inv.available_qty)).getD 0
        let component_time_buckets :=
          create_component_time_buckets time_buckets component_demands component_supplies
        let net_requirements :=
          NettingCalculator.calculate component_demands component_supplies
            initial_inventory config.safety_stock component_time_buckets
            config.allow_negative_inventory
        LotSizingCalculator.apply sqrtFn component_id net_requirements config mc.calendar

/-- Fuel-metered translation of the work-queue loop in
`MrpCalculator::calculate` (Step 4). One unit of fuel per pop; the fuel budget
chosen by `calculate` is generous for every input exercised by a theorem, so
the `CalculationError "fuel"` branch is never reached there. -/
def calcLoop (mc : MrpCalculator) (sqrtFn : ℚ → ℚ)
    (grouped_demands : List (String × List Demand))
    (grouped_supplies : List (String × List Supply))
    (inventory_map : List (String × Inventory)) (time_buckets : List ℤ) :
    Nat → List String → List String → List (String × List Demand) → Nat →
    List PlannedOrder → Except MrpError (List PlannedOrder)
  | _, [], _, _, _, acc => .ok acc
  | 0, _ :: _, _, _, _, _ => .error (.CalculationError "fuel")
  | fuel + 1, component_id :: queue, processed, dependent_demands, counter, acc =>
      if component_id ∈ processed then
        calcLoop mc sqrtFn grouped_demands grouped_supplies inventory_map
          time_buckets fuel queue processed dependent_demands counter acc
      else
        match (mapFind? grouped_demands component_id).getD [] ++
            (mapFind? dependent_demands component_id).getD [] with
        | [] =>
          calcLoop mc sqrtFn grouped_demands grouped_supplies inventory_map
            time_buckets fuel queue (processed ++ [component_id])
            dependent_demands counter acc
        | d0 :: drest =>
          let component_demands := d0 :: drest
          match mc.calculate_component_mrp sqrtFn component_id component_demands
              grouped_supplies inventory_map time_buckets with
          | .error e => .error e
          | .ok orders0 =>
              let orders := assignIds counter orders0
              match explode_bom mc.bom_graph component_id orders with
              | .error e => .error e
              | .ok child_map =>
                  let step := child_map.foldl
                    (fun (st : List String × List (String × List Demand)) entry =>
                      let queue' :=
                        if entry.1 ∈ processed ∨ entry.1 ∈ st.1 then st.1
                        else st.1 ++ [entry.1]
                      (queue', mapAppendEntry st.2 entry.1 entry.2))
                    (queue, dependent_demands)
                  calcLoop mc sqrtFn grouped_demands grouped_supplies
                    inventory_map time_buckets fuel step.1
                    (processed ++ [component_id]) step.2
                    (counter + orders0.length) (acc ++ orders)

/-- Generous fuel budget for `calcLoop`: the Rust loop pops each item at most
twice (once to process, at most once more to skip), and only items from the
initial enumeration or the graph ever enter the queue. -/
def calcFuel (mc : MrpCalculator) (sorted_components : List String) : Nat :=
  2 * (sorted_components.length +
    mc.bom_graph.nodes.foldr (fun p a => a + 1 + p.2.length) 0 + 1)

/-- Translation of `MrpCalculator::calculate` (Steps 1–5): bucketing, grouping,
the topological-sort stub, the per-item work queue, then pegging over the
original demand list. `hash_order` is the `HashMap` key enumeration consumed
by the topological-sort stub. -/
def calculate (mc : MrpCalculator) (sqrtFn : ℚ → ℚ) (hash_order : List String)
    (demands : List Demand) (supplies : List Supply)
    (inventories : List Inventory) : Except MrpError MrpResult :=
  let planning_horizon := mc.get_max_planning_horizon
  let time_buckets :=
    BucketingCalculator.create_time_buckets demands supplies planning_horizon
  let grouped_demands := group_demands_by_component demands
  let grouped_supplies := group_supplies_by_component supplies
  let inventory_map := create_inventory_map inventories
  match topological_sort grouped_demands hash_order with
  | .error e => .error e
  | .ok sorted_components =>
      match calcLoop mc sqrtFn grouped_demands grouped_supplies inventory_map
          time_buckets (calcFuel mc sorted_components) sorted_components [] [] 0 [] with
      | .error e => .error e
      | .ok all_planned_orders =>
          match PeggingCalculator.perform all_planned_orders demands .MultiLevel with
          | .error e => .error e
          | .ok pegging => .ok ⟨all_planned_orders, pegging⟩

end MrpCalculator

/-! ### Concrete scenario data -/

/-- Concrete demand list used by the C1 witness (the repo's
`test_allow_negative_inventory_false` scenario). -/
def c1Demands : List Demand :=
  [⟨1, "TEST-NEG-1", 100, 0, .SalesOrder, none, 5, none⟩]

/-- All-rest calendar used by the C10 witness: no weekday is a working day. -/
def allFalseCalendar : WorkCalendar :=
  ⟨fun _ => false, [], "NONE"⟩

/-- Configuration used by the C5 counterexample and witness. -/
def c5Config : MrpConfig :=
  ⟨"X", 0, .LotForLot, none, none, some 70, some 50, 0, 90, .Make, true, false⟩

/-- FOQ configuration without a fixed lot, used by the C9 witness. -/
def c9FoqConfig : MrpConfig :=
  ⟨"Y", 0, .FixedOrderQuantity, none, none, none, none, 0, 90, .Buy, true, false⟩

/-- Sum of pegged quantities of a record list. -/
def sumPegged (records : List PeggingRecord) : ℚ :=
  records.foldr (fun r a => r.quantity + a) 0

/-- Concrete demand list for the C8 witness. -/
def c8Demands : List Demand :=
  [⟨7, "COMP-003", 150, 0, .SalesOrder, none, 5, none⟩,
   ⟨8, "COMP-003", 100, 0, .SalesOrder, none, 5, none⟩]

/-- Concrete planned order for the C8 witness. -/
def c8Order : PlannedOrder :=
  PlannedOrder.mk' 1 "COMP-003" 300 0 0 .Production

/-- Dependent demands a parent's orders owe to child `c`, written from the
spec: one demand per (order, edge) pair with the edge's child, in order-major
order. -/
def dependentDemandsFor (P : String) (orders : List PlannedOrder)
    (children : List BomEdge) (c : String) : List Demand :=
  orders.foldr
    (fun O acc =>
      ((children.filter (fun e => e.child = c)).map
        (fun e => MrpCalculator.mkDependentDemand P O e.child e.quantity_per)) ++ acc)
    []

/-- BOM graph used by the C7 witness. -/
def c7Graph : BomGraph := ⟨[("P", [⟨"C", 2⟩])]⟩

/-- Parent order used by the C7 witness. -/
def c7Order : PlannedOrder := PlannedOrder.mk' 3 "P" 10 5 1 .Production

/-- Per-item total planned quantity of an order list. -/
def totalFor (orders : List PlannedOrder) (cid : String) : ℚ :=
  (orders.filter (fun o => o.component_id = cid)).foldr (fun o a => o.quantity + a) 0

/-- `MrpConfig::new` with a lot-for-lot rule: all defaults of the source
constructor (zero safety stock, horizon 90, MRP enabled, negative inventory
disallowed, no quantity constraints). -/
def l4lConfig (component_id : String) (lead_time_days : Nat)
    (procurement_type : ProcurementType) : MrpConfig :=
  ⟨component_id, lead_time_days, .LotForLot, none, none, none, none, 0, 90,
    procurement_type, true, false⟩

/-- Cyclic BOM graph `A → B → A` for the C3 scenario. -/
def c3Graph : BomGraph := ⟨[("A", [⟨"B", 1⟩]), ("B", [⟨"A", 1⟩])]⟩

/-- Calculator over the cyclic graph for the C3 scenario. -/
def c3Calc : MrpCalculator :=
  ⟨c3Graph, [("A", l4lConfig "A" 0 .Make), ("B", l4lConfig "B" 0 .Make)],
    WorkCalendar.new24_7 "C"⟩

/-- Single independent demand of 10 `A` for the C3 scenario. -/
def c3Demands : List Demand := [⟨1, "A", 10, 0, .SalesOrder, none, 5, none⟩]

/-- The three-level bike BOM of scenario S3:
BIKE→FRAME (×1), BIKE→WHEEL (×2), FRAME→STEEL-TUBE (×3). -/
def c2Graph : BomGraph :=
  ⟨[("BIKE", [⟨"FRAME", 1⟩, ⟨"WHEEL", 2⟩]), ("FRAME", [⟨"STEEL-TUBE", 3⟩])]⟩

/-- Calculator for scenario S3 with the lead times of the repository's own
`test_multi_level_bom_mrp` (7/5/3/2), lot-for-lot everywhere, 24/7 calendar.
Dates count days from 2025-12-01. -/
def c2Calc : MrpCalculator :=
  ⟨c2Graph,
    [("BIKE", l4lConfig "BIKE" 7 .Make), ("FRAME", l4lConfig "FRAME" 5 .Make),
      ("WHEEL", l4lConfig "WHEEL" 3 .Buy),
      ("STEEL-TUBE", l4lConfig "STEEL-TUBE" 2 .Buy)],
    WorkCalendar.new24_7 "C"⟩

/-- Scenario S3's single independent demand: 50 BIKE on 2025-12-01 (day 0). -/
def c2Demands : List Demand := [⟨1, "BIKE", 50, 0, .SalesOrder, none, 5, none⟩]

/-- The planned orders the embedded kernel produces on scenario S3 (verified
below): FRAME, WHEEL and STEEL-TUBE each receive a repeated net requirement at
every later bucket while projected on hand stays negative. -/
def c2Orders : List PlannedOrder :=
  [⟨0, "BIKE", 50, 0, -7, .Production, none, []⟩,
   ⟨1, "FRAME", 50, -7, -12, .Production, none, []⟩,
   ⟨2, "FRAME", 50, 0, -5, .Production, none, []⟩,
   ⟨3, "WHEEL", 100, -7, -10, .Purchase, none, []⟩,
   ⟨4, "WHEEL", 100, 0, -3, .Purchase, none, []⟩,
   ⟨5, "STEEL-TUBE", 150, -12, -14, .Purchase, none, []⟩,
   ⟨6, "STEEL-TUBE", 300, -5, -7, .Purchase, none, []⟩,
   ⟨7, "STEEL-TUBE", 300, 0, -2, .Purchase, none, []⟩]

/-- The pegging map produced on scenario S3: only the BIKE order matches an
original demand date. -/
def c2Pegging : List (Nat × List PeggingRecord) :=
  [(0, [⟨1, 50, ["BIKE"]⟩]), (1, []), (2, []), (3, []), (4, []), (5, []),
   (6, []), (7, [])]

/-- Single-edge BOM `P → C (×1)` for the C4 scenario. -/
def c4Graph : BomGraph := ⟨[("P", [⟨"C", 1⟩])]⟩

/-- Calculator for the C4 scenario (lead 0 everywhere, lot-for-lot). -/
def c4Calc : MrpCalculator :=
  ⟨c4Graph, [("P", l4lConfig "P" 0 .Make), ("C", l4lConfig "C" 0 .Make)],
    WorkCalendar.new24_7 "C"⟩

/-- C4 scenario demands: an independent demand on the parent and another on
the child at an earlier date. -/
def c4Demands : List Demand :=
  [⟨1, "P", 10, 10, .SalesOrder, none, 5, none⟩,
   ⟨2, "C", 5, 5, .SalesOrder, none, 5, none⟩]

/-! ### Lemmas and claim theorems -/

section NettingProofs

open NettingCalculator

lemma if_lt_zero_eq_max (P : ℚ) : (if P < 0 then -P else 0) = max 0 (-P) := by
  rcases le_or_lt 0 P with h | h
  · rw [if_neg (not_lt.mpr h), max_eq_left (neg_nonpos.mpr h)]
  · rw [if_pos h, max_eq_right (le_of_lt (neg_pos.mpr h))]

lemma if_lt_ss_eq_max (SS P : ℚ) :
    (if P < SS then SS - P else 0) = max 0 (SS - P) := by
  rcases le_or_lt SS P with h | h
  · rw [if_neg (not_lt.mpr h), max_eq_left (by linarith)]
  · rw [if_pos h, max_eq_right (by linarith)]

lemma netFormula (neg : Bool) (SS P : ℚ) :
    (if neg then (if P < 0 then -P else 0) else (if P < SS then SS - P else 0)) =
      (if neg then max 0 (-P) else max 0 (SS - P)) := by
  cases neg with
  | false => exact if_lt_ss_eq_max SS P
  | true => exact if_lt_zero_eq_max P

lemma nettingGo_length (demands : List Demand) (supplies : List Supply)
    (SS : ℚ) (neg : Bool) :
    ∀ (T : List ℤ) (inv : ℚ),
      (nettingGo demands supplies SS neg inv T).length = T.length := by
  intro T
  induction T with
  | nil => intro inv; rfl
  | cons t rest ih => intro inv; simp [nettingGo, ih]

lemma nettingGo_getD (demands : List Demand) (supplies : List Supply)
    (SS : ℚ) (neg : Bool) :
    ∀ (T : List ℤ) (inv : ℚ) (i : Nat), i < T.length →
      (nettingGo demands supplies SS neg inv T).getD i ⟨0, 0, 0, 0, 0⟩ =
        ⟨T.getD i 0, grossAt demands (T.getD i 0), receiptAt supplies (T.getD i 0),
          pohAfter demands supplies inv (T.take (i + 1)),
          if neg then max 0 (-(pohAfter demands supplies inv (T.take (i + 1))))
          else max 0 (SS - pohAfter demands supplies inv (T.take (i + 1)))⟩ := by
  intro T
  induction T with
  | nil => intro inv i hi; simp at hi
  | cons t rest ih =>
      intro inv i hi
      match i with
      | 0 =>
          simp only [nettingGo, List.getD_cons_zero, List.take_succ_cons,
            List.take_zero, pohAfter]
          rw [netFormula]
      | i + 1 =>
          simp only [nettingGo, List.getD_cons_succ, List.take_succ_cons, pohAfter]
          exact ih _ i (by simpa using hi)

lemma nettingGo_net_nonneg (demands : List Demand) (supplies : List Supply)
    (SS : ℚ) (neg : Bool) :
    ∀ (T : List ℤ) (inv : ℚ) (r : NetRequirement),
      r ∈ nettingGo demands supplies SS neg inv T → 0 ≤ r.net_requirement := by
  intro T
  induction T with
  | nil => intro inv r hr; simp [nettingGo] at hr
  | cons t rest ih =>
      intro inv r hr
      simp only [nettingGo, List.mem_cons] at hr
      rcases hr with hr | hr
      · subst hr
        dsimp only
        split_ifs <;> simp_all <;> linarith
      · exact ih _ r hr

/-- C1: `NettingCalculator::calculate` returns one record per bucket, in axis
order, with the gross requirement, scheduled receipt, projected on hand
`P(t) = P(t−1) + R(t) − G(t)` seeded with the initial inventory, net
requirement `max(0, SS − P(t))` when negative inventory is disallowed and
`max(0, −P(t))` when it is allowed, the raw `P(t)` carried forward, and a
nonnegative net requirement at every bucket. -/
theorem netting_calculate_matches_spec (demands : List Demand)
    (supplies : List Supply) (I0 SS : ℚ) (T : List ℤ) (neg : Bool) :
    (calculate demands supplies I0 SS T neg).length = T.length ∧
    (∀ i : Nat, i < T.length →
      (calculate demands supplies I0 SS T neg).getD i ⟨0, 0, 0, 0, 0⟩ =
        ⟨T.getD i 0, grossAt demands (T.getD i 0), receiptAt supplies (T.getD i 0),
          pohAfter demands supplies I0 (T.take (i + 1)),
          if neg then max 0 (-(pohAfter demands supplies I0 (T.take (i + 1))))
          else max 0 (SS - pohAfter demands supplies I0 (T.take (i + 1)))⟩) ∧
    (∀ r ∈ calculate demands supplies I0 SS T neg, 0 ≤ r.net_requirement) :=
  ⟨nettingGo_length demands supplies SS neg T I0,
    fun i hi => nettingGo_getD demands supplies SS neg T I0 i hi,
    fun r hr => nettingGo_net_nonneg demands supplies SS neg T I0 r hr⟩



/-- Witness for C1: evaluating the theorem's formulas at the concrete
single-bucket scenario gives `P = −70` and `N = 80`. -/
theorem netting_calculate_matches_spec_witness :
    (NettingCalculator.calculate c1Demands [] 30 10 [0] false).getD 0
        ⟨0, 0, 0, 0, 0⟩ = ⟨0, 100, 0, -70, 80⟩ :=
  ((netting_calculate_matches_spec c1Demands [] 30 10 [0] false).2.1 0
    (by decide)).trans (by
      norm_num [c1Demands, NettingCalculator.grossAt, NettingCalculator.receiptAt,
        NettingCalculator.pohAfter])

end NettingProofs

section CalendarProofs

namespace WorkCalendar

variable (cal : WorkCalendar)

lemma le_holidayMax (d : ℤ) : d ≤ cal.holidayMax d := by
  unfold holidayMax
  induction cal.holidays with
  | nil => exact le_refl d
  | cons h rest ih => exact le_trans ih (le_max_right h _)

lemma holiday_le_holidayMax (d : ℤ) : ∀ h ∈ cal.holidays, h ≤ cal.holidayMax d := by
  unfold holidayMax
  induction cal.holidays with
  | nil => intro h hh; simp at hh
  | cons x rest ih =>
      intro h hh
      rcases List.mem_cons.mp hh with rfl | hh
      · exact le_max_left h _
      · exact le_trans (ih h hh) (le_max_right x _)

lemma holidayMin_le (d : ℤ) : cal.holidayMin d ≤ d := by
  unfold holidayMin
  induction cal.holidays with
  | nil => exact le_refl d
  | cons h rest ih => exact le_trans (min_le_right h _) ih

lemma holidayMin_le_holiday (d : ℤ) : ∀ h ∈ cal.holidays, cal.holidayMin d ≤ h := by
  unfold holidayMin
  induction cal.holidays with
  | nil => intro h hh; simp at hh
  | cons x rest ih =>
      intro h hh
      rcases List.mem_cons.mp hh with rfl | hh
      · exact min_le_left h _
      · exact le_trans (min_le_right x _) (ih h hh)

lemma isWorkingDay_of_no_holiday (d : ℤ) (hh : d ∉ cal.holidays)
    (hm : cal.working_days (weekdayIndex d) = true) :
    cal.isWorkingDay d = true := by
  unfold isWorkingDay
  rw [if_neg]
  · exact hm
  · simpa using hh

lemma exists_working_in_scan (hw : cal.hasWorkingDay) (c : ℤ) :
    ∃ k : ℕ, k < cal.scanBound c ∧ cal.isWorkingDay (c + k) = true := by
  obtain ⟨j, hj⟩ := hw
  set M := cal.holidayMax c with hM
  have hcM : c ≤ M := cal.le_holidayMax c
  set i : ℤ := ((j.val : ℤ) - (M + 1)) % 7 with hi
  have hi0 : 0 ≤ i := Int.emod_nonneg _ (by norm_num)
  have hi7 : i < 7 := Int.emod_lt_of_pos _ (by norm_num)
  set day : ℤ := M + 1 + i with hday
  have hdayc : c < day := by omega
  have hweek : weekdayIndex day = j := by
    have hjv : (j.val : ℤ) < 7 := by exact_mod_cast j.isLt
    have hjv0 : (0 : ℤ) ≤ (j.val : ℤ) := Int.ofNat_nonneg _
    apply Fin.ext
    show ((day % 7).toNat : ℕ) = j.val
    omega
  have hnh : day ∉ cal.holidays := by
    intro hmem
    have := cal.holiday_le_holidayMax c day hmem
    omega
  have hwday : cal.isWorkingDay day = true := by
    apply cal.isWorkingDay_of_no_holiday day hnh
    rw [hweek]; exact hj
  refine ⟨(day - c).toNat, ?_, ?_⟩
  · have : cal.scanBound c = 8 + (M - c).toNat := rfl
    omega
  · have : c + ((day - c).toNat : ℤ) = day := by omega
    rw [this]; exact hwday

lemma exists_working_in_scanDown (hw : cal.hasWorkingDay) (c : ℤ) :
    ∃ k : ℕ, k < cal.scanBoundDown c ∧ cal.isWorkingDay (c - k) = true := by
  obtain ⟨j, hj⟩ := hw
  set M := cal.holidayMin c with hM
  have hcM : M ≤ c := cal.holidayMin_le c
  set i : ℤ := ((M - 1) - (j.val : ℤ)) % 7 with hi
  have hi0 : 0 ≤ i := Int.emod_nonneg _ (by norm_num)
  have hi7 : i < 7 := Int.emod_lt_of_pos _ (by norm_num)
  set day : ℤ := M - 1 - i with hday
  have hdayc : day < c := by omega
  have hweek : weekdayIndex day = j := by
    have hjv : (j.val : ℤ) < 7 := by exact_mod_cast j.isLt
    have hjv0 : (0 : ℤ) ≤ (j.val : ℤ) := Int.ofNat_nonneg _
    apply Fin.ext
    show ((day % 7).toNat : ℕ) = j.val
    omega
  have hnh : day ∉ cal.holidays := by
    intro hmem
    have := cal.holidayMin_le_holiday c day hmem
    omega
  have hwday : cal.isWorkingDay day = true := by
    apply cal.isWorkingDay_of_no_holiday day hnh
    rw [hweek]; exact hj
  refine ⟨(c - day).toNat, ?_, ?_⟩
  · have : cal.scanBoundDown c = 8 + (c - M).toNat := rfl
    omega
  · have : c - ((c - day).toNat : ℤ) = day := by omega
    rw [this]; exact hwday

lemma nextWorkingAux_spec :
    ∀ (f : ℕ) (c : ℤ), (∃ k : ℕ, k < f ∧ cal.isWorkingDay (c + k) = true) →
      cal.isWorkingDay (cal.nextWorkingAux f c) = true ∧
      c ≤ cal.nextWorkingAux f c ∧
      ∀ x : ℤ, c ≤ x → x < cal.nextWorkingAux f c → cal.isWorkingDay x = false := by
  intro f
  induction f with
  | zero => intro c ⟨k, hk, _⟩; omega
  | succ f ih =>
      intro c ⟨k, hk, hkw⟩
      by_cases hc : cal.isWorkingDay c = true
      · rw [nextWorkingAux, if_pos hc]
        exact ⟨hc, le_refl c, fun x hx1 hx2 => absurd hx1 (not_le.mpr hx2)⟩
      · have hc' : cal.isWorkingDay c = false := by
          cases h : cal.isWorkingDay c
          · rfl
          · exact absurd h hc
        rw [nextWorkingAux, if_neg (by simp [hc'])]
        have hk0 : k ≠ 0 := by
          intro h0
          rw [h0] at hkw
          simp at hkw
          rw [hkw] at hc'
          cases hc'
        obtain ⟨k', rfl⟩ := Nat.exists_eq_succ_of_ne_zero hk0
        have hex : ∃ m : ℕ, m < f ∧ cal.isWorkingDay (c + 1 + m) = true := by
          refine ⟨k', by omega, ?_⟩
          have : c + 1 + (k' : ℤ) = c + ((k' + 1: ℕ) : ℤ) := by push_cast; ring
          rw [this]; exact hkw
        obtain ⟨h1, h2, h3⟩ := ih (c + 1) hex
        refine ⟨h1, by omega, ?_⟩
        intro x hx1 hx2
        rcases eq_or_lt_of_le hx1 with rfl | hx1'
        · exact hc'
        · exact h3 x (by omega) hx2

lemma nextWorkingGe_spec (hw : cal.hasWorkingDay) (c : ℤ) :
    cal.isWorkingDay (cal.nextWorkingGe c) = true ∧
    c ≤ cal.nextWorkingGe c ∧
    ∀ x : ℤ, c ≤ x → x < cal.nextWorkingGe c → cal.isWorkingDay x = false :=
  cal.nextWorkingAux_spec (cal.scanBound c) c
    (by
      obtain ⟨k, hk1, hk2⟩ := cal.exists_working_in_scan hw c
      exact ⟨k, hk1, hk2⟩)

lemma prevWorkingAux_spec :
    ∀ (f : ℕ) (c : ℤ), (∃ k : ℕ, k < f ∧ cal.isWorkingDay (c - k) = true) →
      cal.isWorkingDay (cal.prevWorkingAux f c) = true ∧
      cal.prevWorkingAux f c ≤ c ∧
      ∀ x : ℤ, x ≤ c → cal.prevWorkingAux f c < x → cal.isWorkingDay x = false := by
  intro f
  induction f with
  | zero => intro c ⟨k, hk, _⟩; omega
  | succ f ih =>
      intro c ⟨k, hk, hkw⟩
      by_cases hc : cal.isWorkingDay c = true
      · rw [prevWorkingAux, if_pos hc]
        exact ⟨hc, le_refl c, fun x hx1 hx2 => absurd hx1 (not_le.mpr hx2)⟩
      · have hc' : cal.isWorkingDay c = false := by
          cases h : cal.isWorkingDay c
          · rfl
          · exact absurd h hc
        rw [prevWorkingAux, if_neg (by simp [hc'])]
        have hk0 : k ≠ 0 := by
          intro h0
          rw [h0] at hkw
          simp at hkw
          rw [hkw] at hc'
          cases hc'
        obtain ⟨k', rfl⟩ := Nat.exists_eq_succ_of_ne_zero hk0
        have hex : ∃ m : ℕ, m < f ∧ cal.isWorkingDay (c - 1 - m) = true := by
          refine ⟨k', by omega, ?_⟩
          have : c - 1 - (k' : ℤ) = c - ((k' + 1 : ℕ) : ℤ) := by push_cast; ring
          rw [this]; exact hkw
        obtain ⟨h1, h2, h3⟩ := ih (c - 1) hex
        refine ⟨h1, by omega, ?_⟩
        intro x hx1 hx2
        rcases eq_or_lt_of_le hx1 with rfl | hx1'
        · exact hc'
        · exact h3 x (by omega) hx2

lemma prevWorkingLe_spec (hw : cal.hasWorkingDay) (c : ℤ) :
    cal.isWorkingDay (cal.prevWorkingLe c) = true ∧
    cal.prevWorkingLe c ≤ c ∧
    ∀ x : ℤ, x ≤ c → cal.prevWorkingLe c < x → cal.isWorkingDay x = false :=
  cal.prevWorkingAux_spec (cal.scanBoundDown c) c
    (by
      obtain ⟨k, hk1, hk2⟩ := cal.exists_working_in_scanDown hw c
      exact ⟨k, hk1, hk2⟩)

lemma nextWorkingGe_eq (hw : cal.hasWorkingDay) {c w : ℤ} (hcw : c ≤ w)
    (hww : cal.isWorkingDay w = true)
    (hmin : ∀ y : ℤ, c ≤ y → y < w → cal.isWorkingDay y = false) :
    cal.nextWorkingGe c = w := by
  obtain ⟨h1, h2, h3⟩ := cal.nextWorkingGe_spec hw c
  rcases lt_trichotomy (cal.nextWorkingGe c) w with h | h | h
  · have := hmin _ h2 h
    rw [this] at h1
    cases h1
  · exact h
  · have := h3 w hcw h
    rw [this] at hww
    cases hww

lemma next_prev (hw : cal.hasWorkingDay) (x : ℤ) :
    cal.nextWorkingGe (cal.prevWorkingLe (x - 1) + 1) =
      if cal.isWorkingDay x = true then x else cal.nextWorkingGe (x + 1) := by
  obtain ⟨hp1, hp2, hp3⟩ := cal.prevWorkingLe_spec hw (x - 1)
  by_cases hx : cal.isWorkingDay x = true
  · rw [if_pos hx]
    apply cal.nextWorkingGe_eq hw (by omega) hx
    intro y hy1 hy2
    exact hp3 y (by omega) (by omega)
  · rw [if_neg hx]
    have hxf : cal.isWorkingDay x = false := by
      cases h : cal.isWorkingDay x
      · rfl
      · exact absurd h hx
    obtain ⟨hn1, hn2, hn3⟩ := cal.nextWorkingGe_spec hw (x + 1)
    apply cal.nextWorkingGe_eq hw (by omega) hn1
    intro y hy1 hy2
    rcases lt_trichotomy y x with h | rfl | h
    · exact hp3 y (by omega) (by omega)
    · exact hxf
    · exact hn3 y (by omega) hy2

lemma addWorkingDays_succ_last (d : ℤ) :
    ∀ n : ℕ, cal.addWorkingDays d (n + 1) =
      cal.nextWorkingGe (cal.addWorkingDays d n + 1) := by
  intro n
  induction n generalizing d with
  | zero => rfl
  | succ n ih =>
      show cal.addWorkingDays (cal.nextWorkingGe (d + 1)) (n + 1) = _
      rw [ih (cal.nextWorkingGe (d + 1))]
      rfl

lemma roundTripAux (hw : cal.hasWorkingDay) :
    ∀ (n : ℕ) (r : ℤ),
      cal.addWorkingDays (cal.subtractWorkingDays r (n + 1)) (n + 1) =
        if cal.isWorkingDay r = true then r else cal.nextWorkingGe (r + 1) := by
  intro n
  induction n with
  | zero =>
      intro r
      show cal.nextWorkingGe (cal.prevWorkingLe (r - 1) + 1) = _
      exact cal.next_prev hw r
  | succ n ih =>
      intro r
      have h1 : cal.subtractWorkingDays r (n + 2) =
          cal.subtractWorkingDays (cal.prevWorkingLe (r - 1)) (n + 1) := rfl
      rw [h1, cal.addWorkingDays_succ_last _ (n + 1), ih (cal.prevWorkingLe (r - 1)),
        if_pos (cal.prevWorkingLe_spec hw (r - 1)).1]
      exact cal.next_prev hw r

end WorkCalendar

/-- C6 (amended): on any calendar with at least one working weekday, for every
date `r` and every `lead_time_days ≥ 1`,
`add_working_days(subtract_working_days(r, n), n)` is `r` when `r` is a
working day and otherwise the first working day strictly after `r`; for
`n = 0` the round trip returns `r` itself (`add_working_days(d, 0) = d`),
also when `r` is non-working. -/
theorem calendar_round_trip (cal : WorkCalendar) (hw : cal.hasWorkingDay)
    (r : ℤ) (n : ℕ) :
    (1 ≤ n →
      cal.addWorkingDays (cal.subtractWorkingDays r n) n =
        if cal.isWorkingDay r = true then r else cal.nextWorkingGe (r + 1)) ∧
    cal.addWorkingDays (cal.subtractWorkingDays r 0) 0 = r ∧
    (cal.isWorkingDay (cal.nextWorkingGe (r + 1)) = true ∧
      r < cal.nextWorkingGe (r + 1) ∧
      ∀ x : ℤ, r < x → x < cal.nextWorkingGe (r + 1) →
        cal.isWorkingDay x = false) := by
  refine ⟨?_, rfl, ?_⟩
  · intro hn
    obtain ⟨m, rfl⟩ : ∃ m, n = m + 1 := ⟨n - 1, by omega⟩
    exact cal.roundTripAux hw m r
  · obtain ⟨h1, h2, h3⟩ := cal.nextWorkingGe_spec hw (r + 1)
    exact ⟨h1, by omega, fun x hx1 hx2 => h3 x (by omega) hx2⟩

/-- Witness for C6: on the Monday–Friday calendar, walking back one working
day from Saturday (day 12) and forward again lands on the following Monday
(day 14), the first working day after it. -/
theorem calendar_round_trip_witness :
    (WorkCalendar.newDefault "W").addWorkingDays
        ((WorkCalendar.newDefault "W").subtractWorkingDays 12 1) 1 =
      (if (WorkCalendar.newDefault "W").isWorkingDay 12 = true then (12 : ℤ)
        else (WorkCalendar.newDefault "W").nextWorkingGe (12 + 1)) ∧
    (WorkCalendar.newDefault "W").addWorkingDays
        ((WorkCalendar.newDefault "W").subtractWorkingDays 12 1) 1 = 14 :=
  ⟨(calendar_round_trip (WorkCalendar.newDefault "W") (by decide) 12 1).1
      (by decide),
    by decide⟩

/-- Counterexample for C6 as stated: with `lead_time_days = 0` and a
non-working required date (Saturday, day 12, on the Monday–Friday calendar),
the round trip returns the date itself, not the first working day after it. -/
theorem calendar_round_trip_counterexample :
    (WorkCalendar.newDefault "W").hasWorkingDay ∧
    (WorkCalendar.newDefault "W").isWorkingDay 12 = false ∧
    (WorkCalendar.newDefault "W").addWorkingDays
        ((WorkCalendar.newDefault "W").subtractWorkingDays 12 0) 0 = 12 ∧
    (WorkCalendar.newDefault "W").nextWorkingGe (12 + 1) = 14 ∧
    (12 : ℤ) ≠ 14 := by
  decide

namespace WorkCalendar

variable (cal : WorkCalendar)

lemma addF_through (hw : cal.hasWorkingDay) :
    ∀ (k : ℕ) (d : ℤ) (n f : ℕ), cal.nextWorkingGe (d + 1) = d + 1 + k →
      cal.addWorkingDaysF (k + 1 + f) d (n + 1) =
        cal.addWorkingDaysF f (cal.nextWorkingGe (d + 1)) n := by
  intro k
  induction k with
  | zero =>
      intro d n f hk
      have hw1 : cal.isWorkingDay (d + 1) = true := by
        have h := (cal.nextWorkingGe_spec hw (d + 1)).1
        rw [hk] at h
        simpa using h
      show cal.addWorkingDaysF (0 + 1 + f) d (n + 1) = _
      rw [show 0 + 1 + f = f + 1 by omega]
      simp only [addWorkingDaysF, hw1, if_true, hk]
      norm_num
  | succ k ih =>
      intro d n f hk
      have hnw : cal.isWorkingDay (d + 1) = false :=
        (cal.nextWorkingGe_spec hw (d + 1)).2.2 (d + 1) (le_refl _) (by omega)
      have hN : cal.nextWorkingGe (d + 1 + 1) = cal.nextWorkingGe (d + 1) := by
        obtain ⟨h1, h2, h3⟩ := cal.nextWorkingGe_spec hw (d + 1)
        exact cal.nextWorkingGe_eq hw (by omega) h1
          (fun y hy1 hy2 => h3 y (by omega) hy2)
      have hstep : cal.addWorkingDaysF (k + 1 + 1 + f) d (n + 1) =
          cal.addWorkingDaysF (k + 1 + f) (d + 1) (n + 1) := by
        rw [show k + 1 + 1 + f = (k + 1 + f) + 1 by omega]
        simp only [addWorkingDaysF, hnw]
        norm_num
      rw [hstep, ih (d + 1) n f (by rw [hN, hk]; push_cast; ring), hN]

lemma subF_through (hw : cal.hasWorkingDay) :
    ∀ (k : ℕ) (d : ℤ) (n f : ℕ), cal.prevWorkingLe (d - 1) = d - 1 - k →
      cal.subtractWorkingDaysF (k + 1 + f) d (n + 1) =
        cal.subtractWorkingDaysF f (cal.prevWorkingLe (d - 1)) n := by
  intro k
  induction k with
  | zero =>
      intro d n f hk
      have hw1 : cal.isWorkingDay (d - 1) = true := by
        have h := (cal.prevWorkingLe_spec hw (d - 1)).1
        rw [hk] at h
        simpa using h
      show cal.subtractWorkingDaysF (0 + 1 + f) d (n + 1) = _
      rw [show 0 + 1 + f = f + 1 by omega]
      simp only [subtractWorkingDaysF, hw1, if_true, hk]
      norm_num
  | succ k ih =>
      intro d n f hk
      have hnw : cal.isWorkingDay (d - 1) = false :=
        (cal.prevWorkingLe_spec hw (d - 1)).2.2 (d - 1) (le_refl _) (by omega)
      have hN : cal.prevWorkingLe (d - 1 - 1) = cal.prevWorkingLe (d - 1) := by
        obtain ⟨h1, h2, h3⟩ := cal.prevWorkingLe_spec hw (d - 1)
        have := cal.prevWorkingAux_spec
        obtain ⟨g1, g2, g3⟩ := cal.prevWorkingLe_spec hw (d - 1 - 1)
        rcases lt_trichotomy (cal.prevWorkingLe (d - 1 - 1)) (cal.prevWorkingLe (d - 1)) with h | h | h
        · have := g3 (cal.prevWorkingLe (d - 1)) (by omega) h
          rw [this] at h1
          cases h1
        · exact h
        · have := h3 (cal.prevWorkingLe (d - 1 - 1)) (by omega) h
          rw [this] at g1
          cases g1
      have hstep : cal.subtractWorkingDaysF (k + 1 + 1 + f) d (n + 1) =
          cal.subtractWorkingDaysF (k + 1 + f) (d - 1) (n + 1) := by
        rw [show k + 1 + 1 + f = (k + 1 + f) + 1 by omega]
        simp only [subtractWorkingDaysF, hnw]
        norm_num
      rw [hstep, ih (d - 1) n f (by rw [hN, hk]; push_cast; ring), hN]

lemma addF_terminates (hw : cal.hasWorkingDay) :
    ∀ (n : ℕ) (d : ℤ),
      ∃ f, cal.addWorkingDaysF f d n = some (cal.addWorkingDays d n) := by
  intro n
  induction n with
  | zero => intro d; exact ⟨0, rfl⟩
  | succ n ih =>
      intro d
      obtain ⟨f, hf⟩ := ih (cal.nextWorkingGe (d + 1))
      have hge := (cal.nextWorkingGe_spec hw (d + 1)).2.1
      have hk : cal.nextWorkingGe (d + 1) =
          d + 1 + ((cal.nextWorkingGe (d + 1) - (d + 1)).toNat : ℕ) := by omega
      refine ⟨(cal.nextWorkingGe (d + 1) - (d + 1)).toNat + 1 + f, ?_⟩
      rw [cal.addF_through hw _ d n f hk, hf]
      rfl

lemma subF_terminates (hw : cal.hasWorkingDay) :
    ∀ (n : ℕ) (d : ℤ),
      ∃ f, cal.subtractWorkingDaysF f d n = some (cal.subtractWorkingDays d n) := by
  intro n
  induction n with
  | zero => intro d; exact ⟨0, rfl⟩
  | succ n ih =>
      intro d
      obtain ⟨f, hf⟩ := ih (cal.prevWorkingLe (d - 1))
      have hge := (cal.prevWorkingLe_spec hw (d - 1)).2.1
      have hk : cal.prevWorkingLe (d - 1) =
          d - 1 - (((d - 1) - cal.prevWorkingLe (d - 1)).toNat : ℕ) := by omega
      refine ⟨((d - 1) - cal.prevWorkingLe (d - 1)).toNat + 1 + f, ?_⟩
      rw [cal.subF_through hw _ d n f hk, hf]
      rfl

lemma isWorkingDay_false_of_allfalse
    (hall : ∀ j, cal.working_days j = false) (d : ℤ) :
    cal.isWorkingDay d = false := by
  unfold isWorkingDay
  split
  · rfl
  · exact hall _

lemma addF_none_of_allfalse (hall : ∀ j, cal.working_days j = false) :
    ∀ (f : ℕ) (d : ℤ) (n : ℕ), cal.addWorkingDaysF f d (n + 1) = none := by
  intro f
  induction f with
  | zero => intro d n; rfl
  | succ f ih =>
      intro d n
      show cal.addWorkingDaysF (f + 1) d (n + 1) = none
      simp only [addWorkingDaysF, cal.isWorkingDay_false_of_allfalse hall]
      norm_num
      exact ih (d + 1) n

lemma subF_none_of_allfalse (hall : ∀ j, cal.working_days j = false) :
    ∀ (f : ℕ) (d : ℤ) (n : ℕ), cal.subtractWorkingDaysF f d (n + 1) = none := by
  intro f
  induction f with
  | zero => intro d n; rfl
  | succ f ih =>
      intro d n
      show cal.subtractWorkingDaysF (f + 1) d (n + 1) = none
      simp only [subtractWorkingDaysF, cal.isWorkingDay_false_of_allfalse hall]
      norm_num
      exact ih (d - 1) n

end WorkCalendar

/-- C10: the day-stepping loops of `add_working_days` and
`subtract_working_days` terminate for every start date and count whenever the
7-entry weekday mask has a working entry (the fuel-metered loops reach the
value of the total walks), and when every mask entry is false neither loop
terminates for any count `≥ 1` — no fuel budget suffices — because
`is_working_day` is false for every date. -/
theorem calendar_walks_terminate_iff_mask (cal : WorkCalendar) :
    (cal.hasWorkingDay →
      ∀ (d : ℤ) (n : ℕ),
        (∃ f, cal.addWorkingDaysF f d n = some (cal.addWorkingDays d n)) ∧
        (∃ f, cal.subtractWorkingDaysF f d n = some (cal.subtractWorkingDays d n))) ∧
    ((∀ j, cal.working_days j = false) →
      (∀ d : ℤ, cal.isWorkingDay d = false) ∧
      (∀ (f : ℕ) (d : ℤ) (n : ℕ), 1 ≤ n →
        cal.addWorkingDaysF f d n = none ∧
        cal.subtractWorkingDaysF f d n = none)) := by
  constructor
  · intro hw d n
    exact ⟨cal.addF_terminates hw n d, cal.subF_terminates hw n d⟩
  · intro hall
    refine ⟨cal.isWorkingDay_false_of_allfalse hall, ?_⟩
    intro f d n hn
    obtain ⟨m, rfl⟩ : ∃ m, n = m + 1 := ⟨n - 1, by omega⟩
    exact ⟨cal.addF_none_of_allfalse hall f d m,
      cal.subF_none_of_allfalse hall f d m⟩



/-- Witness for C10: on the Monday–Friday calendar some fuel completes a
2-working-day walk from day 0, and on the all-false calendar the walk with
fuel 3 and count 1 is still unfinished. -/
theorem calendar_walks_terminate_iff_mask_witness :
    (∃ f, (WorkCalendar.newDefault "W").addWorkingDaysF f 0 2 =
      some ((WorkCalendar.newDefault "W").addWorkingDays 0 2)) ∧
    allFalseCalendar.addWorkingDaysF 3 0 1 = none :=
  ⟨((calendar_walks_terminate_iff_mask (WorkCalendar.newDefault "W")).1
      (by decide) 0 2).1,
    (((calendar_walks_terminate_iff_mask allFalseCalendar).2
      (by decide)).2 3 0 1 (by decide)).1⟩

end CalendarProofs

section LotSizingProofs

open LotSizingCalculator

lemma ratMod_lt (q m : ℚ) (hm : 0 < m) : ratMod q m < m := by
  unfold ratMod ratTrunc
  by_cases h : 0 ≤ q / m
  · rw [if_pos h]
    have h1 : q / m < ⌊q / m⌋ + 1 := Int.lt_floor_add_one _
    have h2 : q = m * (q / m) := by field_simp
    nlinarith
  · rw [if_neg h]
    have h1 : q / m ≤ ⌈q / m⌉ := Int.le_ceil _
    have h2 : q = m * (q / m) := by field_simp
    nlinarith

lemma ratMod_nonneg (q m : ℚ) (hq : 0 ≤ q) (hm : 0 < m) : 0 ≤ ratMod q m := by
  unfold ratMod ratTrunc
  have h : 0 ≤ q / m := div_nonneg hq (le_of_lt hm)
  rw [if_pos h]
  have h1 : (⌊q / m⌋ : ℚ) ≤ q / m := Int.floor_le _
  have h2 : q = m * (q / m) := by field_simp
  nlinarith

lemma ratMod_mul_int (m : ℚ) (hm : m ≠ 0) (k : ℤ) : ratMod (m * k) m = 0 := by
  unfold ratMod ratTrunc
  have h : m * (k : ℚ) / m = (k : ℚ) := by field_simp
  rw [h]
  by_cases hk : (0 : ℚ) ≤ (k : ℚ)
  · rw [if_pos hk, Int.floor_intCast]; ring
  · rw [if_neg hk, Int.ceil_intCast]; ring

lemma ratMod_decompose (q m : ℚ) : q - ratMod q m = m * (ratTrunc (q / m) : ℚ) := by
  unfold ratMod; ring

lemma adjust_multiple_core (m : ℚ) (hmpos : 0 < m) (q1 : ℚ) (hq1 : 0 ≤ q1) :
    ratMod (if 0 < ratMod q1 m then q1 - ratMod q1 m + m else q1) m = 0 := by
  split_ifs with hr
  · have hdec := ratMod_decompose q1 m
    have h : q1 - ratMod q1 m + m = m * ((ratTrunc (q1 / m) + 1 : ℤ) : ℚ) := by
      push_cast
      linarith
    rw [h]
    exact ratMod_mul_int m (ne_of_gt hmpos) _
  · exact le_antisymm (not_lt.mp hr) (ratMod_nonneg q1 m hq1 hmpos)

/-- Properties of `adjust_order_quantity` on a nonnegative requested quantity:
the result never exceeds a configured `max_qty`; when `max_qty` is unset, the
result is at least any configured `min_qty` and divisible by any configured
positive `multiple`. -/
lemma adjust_order_quantity_spec (cfg : MrpConfig) (q : ℚ) (hq : 0 ≤ q) :
    (∀ mx : ℚ, cfg.maximum_order_qty = some mx → cfg.adjust_order_quantity q ≤ mx) ∧
    (cfg.maximum_order_qty = none →
      (∀ mn : ℚ, cfg.minimum_order_qty = some mn → mn ≤ cfg.adjust_order_quantity q) ∧
      (∀ m : ℚ, cfg.order_multiple = some m → 0 < m →
        ratMod (cfg.adjust_order_quantity q) m = 0)) := by
  unfold MrpConfig.adjust_order_quantity
  constructor
  · intro mx hmx
    rw [hmx]
    dsimp only
    split_ifs <;> linarith
  · intro hmx
    rw [hmx]
    dsimp only
    constructor
    · intro mn hmn
      rw [hmn]
      dsimp only
      set q1 : ℚ := if q < mn then mn else q with hq1
      have hmnq1 : mn ≤ q1 := by
        rw [hq1]
        split_ifs with h
        · exact le_refl mn
        · linarith
      rcases hm : cfg.order_multiple with _ | m
      · dsimp only
        exact hmnq1
      · dsimp only
        split_ifs with h1 h2
        · have := ratMod_lt q1 m h1
          linarith
        · exact hmnq1
        · exact hmnq1
    · intro m hm hmpos
      rw [hm]
      dsimp only
      rw [if_pos hmpos]
      rcases hmn : cfg.minimum_order_qty with _ | mn <;> dsimp only
      · exact adjust_multiple_core m hmpos q hq
      · refine adjust_multiple_core m hmpos _ ?_
        split_ifs with h
        · linarith
        · exact hq

/-- Generic invariant for the running-inventory folds of the lot-sizing
policies: every order in the fold's output list is either in the seed list or
satisfies the per-push property. -/
lemma foldl_orders_invariant {σ : Type} (P : PlannedOrder → Prop)
    (step : σ × List PlannedOrder → NetRequirement → σ × List PlannedOrder)
    (hstep : ∀ st r, ∀ O ∈ (step st r).2, O ∈ st.2 ∨ P O) :
    ∀ (l : List NetRequirement) (st : σ × List PlannedOrder),
      ∀ O ∈ (l.foldl step st).2, O ∈ st.2 ∨ P O := by
  intro l
  induction l with
  | nil => intro st O hO; exact Or.inl hO
  | cons r rest ih =>
      intro st O hO
      rcases ih (step st r) O hO with h | h
      · exact hstep st r O h
      · exact Or.inr h

/-- Every order emitted by `runLotLoop` has a quantity produced by
`adjust_order_quantity`. -/
lemma runLotLoop_quantity (component_id : String) (lot_size : ℚ)
    (net_requirements : List NetRequirement) (config : MrpConfig)
    (calendar : WorkCalendar) :
    ∀ O ∈ runLotLoop component_id lot_size net_requirements config calendar,
      ∃ b : ℚ, O.quantity = config.adjust_order_quantity b := by
  intro O hO
  unfold runLotLoop at hO
  have := foldl_orders_invariant
    (fun O => ∃ b : ℚ, O.quantity = config.adjust_order_quantity b) _
    ?_ net_requirements (0, []) O hO
  · rcases this with h | h
    · simp at h
    · exact h
  · intro st r O' hO'
    dsimp only at hO'
    split_ifs at hO' with h
    · rcases List.mem_append.mp hO' with h' | h'
      · exact Or.inl h'
      · refine Or.inr ?_
        rcases List.mem_singleton.mp h' with rfl
        exact ⟨_, rfl⟩
    · exact Or.inl hO'

/-- Generic invariant for the plain accumulating folds of the lot-sizing
policies. -/
lemma foldl_append_invariant (P : PlannedOrder → Prop)
    (step : List PlannedOrder → NetRequirement → List PlannedOrder)
    (hstep : ∀ acc r, ∀ O ∈ step acc r, O ∈ acc ∨ P O) :
    ∀ (l : List NetRequirement) (acc : List PlannedOrder),
      ∀ O ∈ l.foldl step acc, O ∈ acc ∨ P O := by
  intro l
  induction l with
  | nil => intro acc O hO; exact Or.inl hO
  | cons r rest ih =>
      intro acc O hO
      rcases ih (step acc r) O hO with h | h
      · exact hstep acc r O h
      · exact Or.inr h

/-- Every order emitted by `lot_for_lot` has a quantity produced by
`adjust_order_quantity` of a positive net requirement. -/
lemma lot_for_lot_quantity (component_id : String)
    (net_requirements : List NetRequirement) (config : MrpConfig)
    (calendar : WorkCalendar) :
    ∀ O ∈ lot_for_lot component_id net_requirements config calendar,
      ∃ b : ℚ, 0 < b ∧ O.quantity = config.adjust_order_quantity b := by
  intro O hO
  unfold lot_for_lot at hO
  have h := foldl_append_invariant
    (fun O => ∃ b : ℚ, 0 < b ∧ O.quantity = config.adjust_order_quantity b) _
    ?_ net_requirements [] O hO
  · rcases h with h | h
    · simp at h
    · exact h
  · intro acc r O' hO'
    dsimp only at hO'
    split_ifs at hO' with h
    · rcases List.mem_append.mp hO' with h' | h'
      · exact Or.inl h'
      · rcases List.mem_singleton.mp h' with rfl
        exact Or.inr ⟨r.net_requirement, h, rfl⟩
    · exact Or.inl hO'

/-- Every order emitted by `poqGo` has a quantity produced by
`adjust_order_quantity` of a positive window total. -/
lemma poqGo_quantity (component_id : String) (config : MrpConfig)
    (calendar : WorkCalendar) :
    ∀ (n : ℕ) (l : List NetRequirement), l.length ≤ n →
      ∀ O ∈ poqGo component_id config calendar l,
        ∃ b : ℚ, 0 < b ∧ O.quantity = config.adjust_order_quantity b := by
  intro n
  induction n with
  | zero =>
      intro l hl O hO
      have : l = [] := List.length_eq_zero.mp (Nat.le_zero.mp hl)
      subst this
      simp [poqGo] at hO
  | succ n ih =>
      intro l hl O hO
      match l with
      | [] => simp [poqGo] at hO
      | req0 :: rest =>
          rw [poqGo] at hO
          rcases List.mem_append.mp hO with h | h
          · dsimp only at h
            split_ifs at h with hpos
            · rcases List.mem_singleton.mp h with rfl
              exact ⟨_, hpos, rfl⟩
            · simp at h
          · refine ih _ ?_ O h
            have := List.length_drop
              (rest.takeWhile (fun r => decide (r.date - req0.date < 7))).length rest
            simp only [List.length_cons] at hl
            omega

/-- Every order emitted by `min_max` has a quantity produced by
`adjust_order_quantity`. -/
lemma min_max_quantity (component_id : String)
    (net_requirements : List NetRequirement) (config : MrpConfig)
    (calendar : WorkCalendar) (orders : List PlannedOrder)
    (h : min_max component_id net_requirements config calendar = .ok orders) :
    ∀ O ∈ orders, ∃ b : ℚ, O.quantity = config.adjust_order_quantity b := by
  unfold min_max at h
  obtain rfl := Except.ok.inj h
  intro O hO
  have := foldl_orders_invariant
    (fun O => ∃ b : ℚ, O.quantity = config.adjust_order_quantity b) _
    ?_ net_requirements (0, []) O hO
  · rcases this with h' | h'
    · simp at h'
    · exact h'
  · intro st r O' hO'
    dsimp only at hO'
    split_ifs at hO' with h'
    · rcases List.mem_append.mp hO' with h'' | h''
      · exact Or.inl h''
      · rcases List.mem_singleton.mp h'' with rfl
        exact Or.inr ⟨_, rfl⟩
    · exact Or.inl hO'

/-- C5 (amended): emitted planned-order quantities are normalized by
`adjust_order_quantity` (min-raise, then round up to the multiple, then cap at
max), and on nonnegative requested quantities that normalization guarantees
`q ≤ max_qty` whenever `max_qty` is set, and `min_qty ≤ q` plus
`q mod multiple = 0` whenever `max_qty` is unset; the final cap at `max_qty`
may break the min and multiple constraints, so the three do not hold
simultaneously in general. -/
theorem lot_sizing_quantity_constraints (sqrtFn : ℚ → ℚ) (component_id : String)
    (net_requirements : List NetRequirement) (config : MrpConfig)
    (calendar : WorkCalendar) (orders : List PlannedOrder)
    (happly : LotSizingCalculator.apply sqrtFn component_id net_requirements
      config calendar = .ok orders) :
    (∀ O ∈ orders, ∃ b : ℚ, O.quantity = config.adjust_order_quantity b) ∧
    (∀ q : ℚ, 0 ≤ q →
      (∀ mx : ℚ, config.maximum_order_qty = some mx → config.adjust_order_quantity q ≤ mx) ∧
      (config.maximum_order_qty = none →
        (∀ mn : ℚ, config.minimum_order_qty = some mn →
          mn ≤ config.adjust_order_quantity q) ∧
        (∀ m : ℚ, config.order_multiple = some m → 0 < m →
          ratMod (config.adjust_order_quantity q) m = 0))) := by
  constructor
  · intro O hO
    unfold LotSizingCalculator.apply at happly
    rcases hrule : config.lot_sizing_rule with _ | _ | _ | _ | _ <;>
      rw [hrule] at happly
    · obtain rfl : _ = orders := Except.ok.inj happly
      obtain ⟨b, _, hb⟩ := lot_for_lot_quantity component_id net_requirements
        config calendar O hO
      exact ⟨b, hb⟩
    · unfold fixed_order_quantity at happly
      rcases hfl : config.fixed_lot_size with _ | fl <;> rw [hfl] at happly
      · cases happly
      · obtain rfl : _ = orders := Except.ok.inj happly
        exact runLotLoop_quantity component_id fl net_requirements config
          calendar O hO
    · unfold economic_order_quantity at happly
      obtain rfl : _ = orders := Except.ok.inj happly
      exact runLotLoop_quantity component_id _ net_requirements config
        calendar O hO
    · unfold period_order_quantity at happly
      obtain rfl : _ = orders := Except.ok.inj happly
      obtain ⟨b, _, hb⟩ := poqGo_quantity component_id config calendar
        net_requirements.length net_requirements (le_refl _) O hO
      exact ⟨b, hb⟩
    · exact min_max_quantity component_id net_requirements config calendar
        orders happly O hO
  · intro q hq
    exact adjust_order_quantity_spec config q hq



/-- Counterexample for C5 as stated: with `multiple = 50` and `max_qty = 70`,
a net requirement of 60 is rounded up to 100 and then capped to an emitted
quantity of 70, which is not a multiple of 50. -/
theorem lot_sizing_quantity_constraints_counterexample :
    LotSizingCalculator.lot_for_lot "X" [⟨0, 60, 0, -60, 60⟩] c5Config
        (WorkCalendar.new24_7 "C") =
      [PlannedOrder.mk' 0 "X" 70 0 0 .Production] ∧
    ¬ ratMod 70 50 = 0 := by
  constructor
  · norm_num [LotSizingCalculator.lot_for_lot, c5Config,
      MrpConfig.adjust_order_quantity, ratMod, ratTrunc,
      WorkCalendar.subtractWorkingDays, LotSizingCalculator.determineOrderType,
      PlannedOrder.mk']
  · norm_num [ratMod, ratTrunc]

/-- Witness for C5 (amended): at the counterexample configuration the emitted
order `[70]` is produced by `apply`, and the normalized quantity respects the
configured cap `70`. -/
theorem lot_sizing_quantity_constraints_witness :
    c5Config.adjust_order_quantity 60 ≤ 70 :=
  ((lot_sizing_quantity_constraints (fun _ => 0) "X" [⟨0, 60, 0, -60, 60⟩]
      c5Config (WorkCalendar.new24_7 "C") [PlannedOrder.mk' 0 "X" 70 0 0 .Production]
      (by
        norm_num [LotSizingCalculator.apply, c5Config,
          LotSizingCalculator.lot_for_lot, MrpConfig.adjust_order_quantity,
          ratMod, ratTrunc, WorkCalendar.subtractWorkingDays,
          LotSizingCalculator.determineOrderType, PlannedOrder.mk'])).2
    60 (by norm_num)).1 70 rfl

/-- C9: `LotSizingCalculator::apply` returns `MissingLotSize` exactly when the
rule is `FixedOrderQuantity` and `fixed_lot_size` is unset; in particular EOQ
without a fixed lot derives a lot size instead of failing, and no other error
is ever produced by lot sizing. -/
theorem missing_lot_size_iff (sqrtFn : ℚ → ℚ) (component_id : String)
    (net_requirements : List NetRequirement) (config : MrpConfig)
    (calendar : WorkCalendar) :
    (LotSizingCalculator.apply sqrtFn component_id net_requirements config
        calendar = .error .MissingLotSize ↔
      config.lot_sizing_rule = .FixedOrderQuantity ∧
      config.fixed_lot_size = none) ∧
    (∀ e : MrpError,
      LotSizingCalculator.apply sqrtFn component_id net_requirements config
        calendar = .error e → e = .MissingLotSize) := by
  rcases hrule : config.lot_sizing_rule with _ | _ | _ | _ | _
  · constructor
    · simp [LotSizingCalculator.apply, hrule]
    · intro e he
      simp [LotSizingCalculator.apply, hrule] at he
  · rcases hfl : config.fixed_lot_size with _ | fl
    · constructor
      · simp [LotSizingCalculator.apply, hrule,
          LotSizingCalculator.fixed_order_quantity, hfl]
      · intro e he
        simp [LotSizingCalculator.apply, hrule,
          LotSizingCalculator.fixed_order_quantity, hfl] at he
        exact he.symm
    · constructor
      · simp [LotSizingCalculator.apply, hrule,
          LotSizingCalculator.fixed_order_quantity, hfl]
      · intro e he
        simp [LotSizingCalculator.apply, hrule,
          LotSizingCalculator.fixed_order_quantity, hfl] at he
  · constructor
    · simp [LotSizingCalculator.apply, hrule,
        LotSizingCalculator.economic_order_quantity]
    · intro e he
      simp [LotSizingCalculator.apply, hrule,
        LotSizingCalculator.economic_order_quantity] at he
  · constructor
    · simp [LotSizingCalculator.apply, hrule,
        LotSizingCalculator.period_order_quantity]
    · intro e he
      simp [LotSizingCalculator.apply, hrule,
        LotSizingCalculator.period_order_quantity] at he
  · constructor
    · simp [LotSizingCalculator.apply, hrule, LotSizingCalculator.min_max]
    · intro e he
      simp [LotSizingCalculator.apply, hrule, LotSizingCalculator.min_max] at he



/-- Witness for C9: FOQ with `fixed_lot_size` unset fails with
`MissingLotSize`. -/
theorem missing_lot_size_iff_witness :
    LotSizingCalculator.apply (fun _ => 0) "Y" [] c9FoqConfig
      (WorkCalendar.new24_7 "C") = .error .MissingLotSize :=
  (missing_lot_size_iff (fun _ => 0) "Y" [] c9FoqConfig
    (WorkCalendar.new24_7 "C")).1.mpr ⟨rfl, rfl⟩

end LotSizingProofs

section PeggingProofs

open PeggingCalculator



lemma traceGo_sum_le (component_id : String) (ty : PeggingType) :
    ∀ (l : List Demand) (rem : ℚ), 0 ≤ rem →
      sumPegged (traceGo component_id ty rem l) ≤ rem := by
  intro l
  induction l with
  | nil => intro rem hrem; simpa [traceGo, sumPegged] using hrem
  | cons d rest ih =>
      intro rem hrem
      rw [traceGo.eq_def]
      dsimp only
      by_cases h : rem ≤ 0
      · rw [if_pos h]
        simpa [sumPegged] using hrem
      · rw [if_neg h]
        have hmin : min d.quantity rem ≤ rem := min_le_right _ _
        have hnn : (0 : ℚ) ≤ rem - min d.quantity rem := by linarith
        have hih := ih (rem - min d.quantity rem) hnn
        simp only [sumPegged, List.foldr_cons] at hih ⊢
        linarith

lemma traceGo_mem (component_id : String) (ty : PeggingType) :
    ∀ (l : List Demand) (rem : ℚ) (r : PeggingRecord),
      r ∈ traceGo component_id ty rem l →
      ∃ d ∈ l, r.demand_id = d.id ∧ r.quantity ≤ d.quantity := by
  intro l
  induction l with
  | nil => intro rem r hr; simp [traceGo] at hr
  | cons d rest ih =>
      intro rem r hr
      rw [traceGo.eq_def] at hr
      dsimp only at hr
      by_cases h : rem ≤ 0
      · rw [if_pos h] at hr
        simp at hr
      · rw [if_neg h] at hr
        rcases List.mem_cons.mp hr with rfl | hr'
        · exact ⟨d, List.mem_cons_self d rest, rfl, min_le_left _ _⟩
        · obtain ⟨d', hd', h1, h2⟩ := ih _ r hr'
          exact ⟨d', List.mem_cons_of_mem d hd', h1, h2⟩

lemma perform_never_errors (demands : List Demand) (ty : PeggingType) :
    ∀ (orders : List PlannedOrder) (acc : List (Nat × List PeggingRecord)),
      ∃ m, performGo demands ty orders acc = .ok m := by
  intro orders
  induction orders with
  | nil => intro acc; exact ⟨acc, rfl⟩
  | cons o os ih =>
      intro acc
      obtain ⟨m, hm⟩ := ih (mapInsertReplace acc o.id
        (traceGo o.component_id ty o.quantity
          (matchingDemands demands o.component_id o.required_date)))
      exact ⟨m, hm⟩

/-- C8: for a planned order with positive quantity, under positive demand
quantities, the pegging walk yields records whose quantities sum to at most
the order quantity, each bounded by its matched demand's quantity; with no
matching demand the record list is empty, and `perform` never returns an
error. -/
theorem pegging_bound (O : PlannedOrder) (demands : List Demand)
    (ty : PeggingType) (hQ : 0 < O.quantity)
    (_hpos : ∀ d ∈ demands, 0 < d.quantity) :
    ∃ records,
      trace_demand_source O.component_id O.quantity O.required_date demands ty =
        .ok records ∧
      sumPegged records ≤ O.quantity ∧
      (∀ r ∈ records, ∃ d ∈ demands,
        d.component_id = O.component_id ∧ d.required_date = O.required_date ∧
        r.demand_id = d.id ∧ r.quantity ≤ d.quantity) ∧
      ((∀ d ∈ demands,
          ¬(d.component_id = O.component_id ∧ d.required_date = O.required_date)) →
        records = []) ∧
      (∀ orders : List PlannedOrder, ∃ m, perform orders demands ty = .ok m) := by
  refine ⟨traceGo O.component_id ty O.quantity
    (matchingDemands demands O.component_id O.required_date), rfl, ?_, ?_, ?_, ?_⟩
  · exact traceGo_sum_le O.component_id ty _ O.quantity (le_of_lt hQ)
  · intro r hr
    obtain ⟨d, hd, h1, h2⟩ := traceGo_mem O.component_id ty _ O.quantity r hr
    obtain ⟨hdm, hprop⟩ := List.mem_filter.mp hd
    have hprop' := of_decide_eq_true hprop
    exact ⟨d, hdm, hprop'.1, hprop'.2, h1, h2⟩
  · intro hnone
    have : matchingDemands demands O.component_id O.required_date = [] := by
      apply List.filter_eq_nil_iff.mpr
      intro d hd
      simpa using hnone d hd
    rw [this]
    cases O.quantity with
    | _ => rfl
  · intro orders
    exact perform_never_errors demands ty orders []





/-- Witness for C8: at the repo's `test_multiple_demands_pegging` scenario the
walk pegs 150 + 100 = 250 of the order's 300. -/
theorem pegging_bound_witness :
    ∃ records,
      PeggingCalculator.trace_demand_source "COMP-003" 300 0 c8Demands
        .SingleLevel = .ok records ∧ sumPegged records ≤ 300 :=
  match pegging_bound c8Order c8Demands .SingleLevel (by norm_num [c8Order, PlannedOrder.mk'])
    (by
      intro d hd
      rcases List.mem_cons.mp hd with rfl | hd'
      · norm_num [c8Demands]
      · rcases List.mem_cons.mp hd' with rfl | hd''
        · norm_num [c8Demands]
        · simp [c8Demands] at hd'') with
  | ⟨records, h1, h2, _⟩ => ⟨records, h1, h2⟩

end PeggingProofs

section ExplodeProofs



lemma mapFind?_mapAppendEntry {κ : Type} {α : Type} [DecidableEq κ] :
    ∀ (m : List (κ × List α)) (k : κ) (vs : List α) (k' : κ),
      mapFind? (mapAppendEntry m k vs) k' =
        if k' = k then some ((mapFind? m k').getD [] ++ vs) else mapFind? m k' := by
  intro m
  induction m with
  | nil =>
      intro k vs k'
      by_cases h : k' = k
      · subst h
        simp [mapAppendEntry, mapFind?]
      · have h' : ¬k = k' := fun hh => h hh.symm
        simp [mapAppendEntry, mapFind?, h, h']
  | cons p rest ih =>
      intro k vs k'
      rw [mapAppendEntry]
      by_cases h1 : p.1 = k
      · rw [if_pos h1]
        by_cases h2 : k' = k
        · subst h2
          simp [mapFind?, h1]
        · have h3 : ¬p.1 = k' := by
            rw [h1]
            exact fun hh => h2 hh.symm
          simp [mapFind?, h2, h3]
      · rw [if_neg h1]
        by_cases h3 : p.1 = k'
        · have h2 : ¬k' = k := fun hh => h1 (h3.trans hh)
          simp [mapFind?, h3, h2]
        · simp [mapFind?, h3, ih k vs k']

lemma explode_inner_fold (P : String) (O : PlannedOrder) :
    ∀ (children : List BomEdge) (m : List (String × List Demand)) (c : String),
      (mapFind? (children.foldl
        (fun m' e => mapAppendEntry m' e.child
          [MrpCalculator.mkDependentDemand P O e.child e.quantity_per]) m) c).getD [] =
      (mapFind? m c).getD [] ++
        (children.filter (fun e => e.child = c)).map
          (fun e => MrpCalculator.mkDependentDemand P O e.child e.quantity_per) := by
  intro children
  induction children with
  | nil =>
      intro m c
      simp
  | cons e rest ih =>
      intro m c
      rw [List.foldl_cons, ih, mapFind?_mapAppendEntry]
      by_cases h : e.child = c
      · rw [if_pos h.symm, List.filter_cons_of_pos (by simpa using h)]
        subst h
        simp
      · rw [if_neg (fun hh => h hh.symm),
          List.filter_cons_of_neg (by simpa using h)]

lemma explode_outer_fold (P : String) :
    ∀ (orders : List PlannedOrder) (children : List BomEdge)
      (m : List (String × List Demand)) (c : String),
      (mapFind? (orders.foldl
        (fun child_demands order => children.foldl
          (fun m' e => mapAppendEntry m' e.child
            [MrpCalculator.mkDependentDemand P order e.child e.quantity_per])
          child_demands) m) c).getD [] =
      (mapFind? m c).getD [] ++ dependentDemandsFor P orders children c := by
  intro orders
  induction orders with
  | nil =>
      intro children m c
      simp [dependentDemandsFor]
  | cons O os ih =>
      intro children m c
      rw [List.foldl_cons, ih, explode_inner_fold]
      simp [dependentDemandsFor, List.append_assoc]

/-- C7: `explode_bom` produces, for each parent order and each outgoing BOM
edge, exactly one dependent demand with the edge's child, quantity
`order.quantity × quantity_per`, required date `order.order_date`, kind
`Dependent`, source reference `"<parent>:<order id>"` and priority 5; a
parent absent from the graph or without children yields no dependent
demands. -/
theorem explode_bom_spec (g : BomGraph) (P : String)
    (orders : List PlannedOrder) :
    (∀ children, g.findChildren P = some children → children ≠ [] →
      orders ≠ [] →
      ∃ child_map, MrpCalculator.explode_bom g P orders = .ok child_map ∧
        ∀ c : String,
          (mapFind? child_map c).getD [] = dependentDemandsFor P orders children c) ∧
    (g.findChildren P = none → MrpCalculator.explode_bom g P orders = .ok []) ∧
    (g.findChildren P = some [] → MrpCalculator.explode_bom g P orders = .ok []) ∧
    (orders = [] → MrpCalculator.explode_bom g P orders = .ok []) ∧
    (∀ (parent : String) (O : PlannedOrder) (child : String) (qper : ℚ),
      MrpCalculator.mkDependentDemand parent O child qper =
        ⟨0, child, O.quantity * qper, O.order_date, .Dependent,
          some (parent ++ ":" ++ toString O.id), 5, none⟩) := by
  refine ⟨?_, ?_, ?_, ?_, fun _ _ _ _ => rfl⟩
  · intro children hchildren hne horders
    rcases orders with _ | ⟨o, os⟩
    · exact absurd rfl horders
    rcases children with _ | ⟨e, es⟩
    · exact absurd rfl hne
    unfold MrpCalculator.explode_bom
    dsimp only
    rw [hchildren]
    refine ⟨_, rfl, ?_⟩
    intro c
    rw [explode_outer_fold]
    simp [mapFind?]
  · intro hnone
    unfold MrpCalculator.explode_bom
    rcases orders with _ | ⟨o, os⟩
    · rfl
    · dsimp only
      rw [hnone]
  · intro hempty
    unfold MrpCalculator.explode_bom
    rcases orders with _ | ⟨o, os⟩
    · rfl
    · dsimp only
      rw [hempty]
  · intro horders
    subst horders
    rfl





/-- Witness for C7: exploding one order of 10 through the edge `P → C (×2)`
yields a single dependent demand for `C` of 20 on the order's start date. -/
theorem explode_bom_spec_witness :
    ∃ child_map, MrpCalculator.explode_bom c7Graph "P" [c7Order] = .ok child_map ∧
      (mapFind? child_map "C").getD [] =
        [⟨0, "C", 20, 1, .Dependent, some "P:3", 5, none⟩] := by
  obtain ⟨cm, h1, h2⟩ := (explode_bom_spec c7Graph "P" [c7Order]).1 [⟨"C", 2⟩]
    (by decide) (by decide) (by decide)
  refine ⟨cm, h1, (h2 "C").trans ?_⟩
  norm_num [dependentDemandsFor, MrpCalculator.mkDependentDemand, c7Order,
    PlannedOrder.mk']
  decide

end ExplodeProofs

section PipelineProofs

lemma str_ab : ("A" = "B") = False := by simp
lemma str_ba : ("B" = "A") = False := by simp
lemma str_pc : ("P" = "C") = False := by simp
lemma str_cp : ("C" = "P") = False := by simp
lemma str_bike_frame : ("BIKE" = "FRAME") = False := by simp
lemma str_bike_wheel : ("BIKE" = "WHEEL") = False := by simp
lemma str_bike_st : ("BIKE" = "STEEL-TUBE") = False := by simp
lemma str_frame_bike : ("FRAME" = "BIKE") = False := by simp
lemma str_frame_wheel : ("FRAME" = "WHEEL") = False := by simp
lemma str_frame_st : ("FRAME" = "STEEL-TUBE") = False := by simp
lemma str_wheel_bike : ("WHEEL" = "BIKE") = False := by simp
lemma str_wheel_frame : ("WHEEL" = "FRAME") = False := by simp
lemma str_wheel_st : ("WHEEL" = "STEEL-TUBE") = False := by simp
lemma str_st_bike : ("STEEL-TUBE" = "BIKE") = False := by simp
lemma str_st_frame : ("STEEL-TUBE" = "FRAME") = False := by simp
lemma str_st_wheel : ("STEEL-TUBE" = "WHEEL") = False := by simp

set_option maxHeartbeats 1600000 in
/-- C3: the kernel does not detect the BOM cycle `A → B → A`: `calculate`
returns planned orders for both items instead of failing with
`TopologicalSortError` (the topological-sort step is an insertion-order stub
with the real sort left as a TODO, and the work queue skips already-processed
items, so the loop terminates and succeeds). -/
theorem cyclic_bom_not_refused :
    c3Graph.findChildren "A" = some [⟨"B", 1⟩] ∧
    c3Graph.findChildren "B" = some [⟨"A", 1⟩] ∧
    c3Calc.calculate (fun _ => 0) ["A"] c3Demands [] [] =
      .ok ⟨[⟨0, "A", 10, 0, 0, .Production, none, []⟩,
            ⟨1, "B", 10, 0, 0, .Production, none, []⟩],
           [(0, [⟨1, 10, ["A"]⟩]), (1, [])]⟩ := by
  refine ⟨?_, ?_, ?_⟩
  · norm_num [BomGraph.findChildren, c3Graph, mapFind?]
  · norm_num [BomGraph.findChildren, c3Graph, mapFind?, str_ab, str_ba]
  · norm_num [str_ab, str_ba,
      MrpCalculator.calculate, c3Calc, c3Graph, c3Demands, l4lConfig,
      MrpCalculator.get_max_planning_horizon,
      BucketingCalculator.create_time_buckets,
      MrpCalculator.group_demands_by_component,
      MrpCalculator.group_supplies_by_component,
      MrpCalculator.create_inventory_map, MrpCalculator.topological_sort,
      MrpCalculator.calcFuel, MrpCalculator.calcLoop,
      MrpCalculator.calculate_component_mrp,
      MrpCalculator.create_component_time_buckets, MrpCalculator.assignIds,
      MrpCalculator.explode_bom, MrpCalculator.mkDependentDemand,
      BomGraph.findChildren, NettingCalculator.calculate,
      NettingCalculator.nettingGo, NettingCalculator.grossAt,
      NettingCalculator.receiptAt, LotSizingCalculator.apply,
      LotSizingCalculator.lot_for_lot, LotSizingCalculator.determineOrderType,
      MrpConfig.adjust_order_quantity, MrpConfig.needs_mrp,
      WorkCalendar.subtractWorkingDays, WorkCalendar.new24_7, PlannedOrder.mk',
      mapFind?, mapAppendEntry, mapInsertReplace, sortDates, insertSorted,
      PeggingCalculator.perform, PeggingCalculator.performGo,
      PeggingCalculator.trace_demand_source, PeggingCalculator.traceGo,
      PeggingCalculator.matchingDemands]

set_option maxHeartbeats 4000000 in
/-- Evaluation of the embedded kernel on scenario S3 with the repository
test's lead times: the planned orders and pegging it actually produces. -/
lemma s3_calculate_eval :
    c2Calc.calculate (fun _ => 0) ["BIKE"] c2Demands [] [] =
      .ok ⟨c2Orders, c2Pegging⟩ := by
  norm_num [str_bike_frame, str_bike_wheel, str_bike_st, str_frame_bike,
    str_frame_wheel, str_frame_st, str_wheel_bike, str_wheel_frame,
    str_wheel_st, str_st_bike, str_st_frame, str_st_wheel,
    MrpCalculator.calculate, c2Calc, c2Graph, c2Demands, c2Orders, c2Pegging,
    l4lConfig, MrpCalculator.get_max_planning_horizon,
    BucketingCalculator.create_time_buckets,
    MrpCalculator.group_demands_by_component,
    MrpCalculator.group_supplies_by_component,
    MrpCalculator.create_inventory_map, MrpCalculator.topological_sort,
    MrpCalculator.calcFuel, MrpCalculator.calcLoop,
    MrpCalculator.calculate_component_mrp,
    MrpCalculator.create_component_time_buckets, MrpCalculator.assignIds,
    MrpCalculator.explode_bom, MrpCalculator.mkDependentDemand,
    BomGraph.findChildren, NettingCalculator.calculate,
    NettingCalculator.nettingGo, NettingCalculator.grossAt,
    NettingCalculator.receiptAt, LotSizingCalculator.apply,
    LotSizingCalculator.lot_for_lot, LotSizingCalculator.determineOrderType,
    MrpConfig.adjust_order_quantity, MrpConfig.needs_mrp,
    WorkCalendar.subtractWorkingDays, WorkCalendar.prevWorkingLe,
    WorkCalendar.prevWorkingAux, WorkCalendar.scanBoundDown,
    WorkCalendar.holidayMin, WorkCalendar.isWorkingDay, weekdayIndex,
    WorkCalendar.new24_7, PlannedOrder.mk',
    mapFind?, mapAppendEntry, mapInsertReplace, sortDates, insertSorted,
    PeggingCalculator.perform, PeggingCalculator.performGo,
    PeggingCalculator.trace_demand_source, PeggingCalculator.traceGo,
    PeggingCalculator.matchingDemands]

/-- C2: on scenario S3 — run with the lead times of the repository's own
integration test — the embedded kernel's per-item totals are BIKE 50,
FRAME 100, WHEEL 200, STEEL-TUBE 750, not the claimed 50/50/100/150: netting
re-issues the full shortfall at every bucket on which projected on hand stays
below the safety-stock floor, and lot-for-lot converts each repetition into a
planned order. -/
theorem s3_totals_diverge :
    ∃ res, c2Calc.calculate (fun _ => 0) ["BIKE"] c2Demands [] [] = .ok res ∧
      totalFor res.planned_orders "BIKE" = 50 ∧
      totalFor res.planned_orders "FRAME" = 100 ∧
      totalFor res.planned_orders "WHEEL" = 200 ∧
      totalFor res.planned_orders "STEEL-TUBE" = 750 ∧
      ¬(totalFor res.planned_orders "FRAME" = 50 ∧
        totalFor res.planned_orders "WHEEL" = 100 ∧
        totalFor res.planned_orders "STEEL-TUBE" = 150) := by
  refine ⟨⟨c2Orders, c2Pegging⟩, s3_calculate_eval, ?_, ?_, ?_, ?_, ?_⟩ <;>
    norm_num [totalFor, c2Orders, str_bike_frame, str_bike_wheel, str_bike_st,
      str_frame_bike, str_frame_wheel, str_frame_st, str_wheel_bike,
      str_wheel_frame, str_wheel_st, str_st_bike, str_st_frame, str_st_wheel]

set_option maxHeartbeats 2500000 in
/-- C4: the planned orders depend on the `HashMap` key-iteration order that
the topological-sort stub passes through: processing the child before the
parent drops the parent's dependent demands (the child is already marked
processed and is never re-planned), so the two enumerations of the same
demand keys produce different totals for item `C`. -/
theorem calculate_depends_on_hash_order :
    (MrpCalculator.group_demands_by_component c4Demands).map Prod.fst =
      ["P", "C"] ∧
    ∃ res1 res2,
      c4Calc.calculate (fun _ => 0) ["P", "C"] c4Demands [] [] = .ok res1 ∧
      c4Calc.calculate (fun _ => 0) ["C", "P"] c4Demands [] [] = .ok res2 ∧
      totalFor res1.planned_orders "C" = 20 ∧
      totalFor res2.planned_orders "C" = 10 ∧
      totalFor res1.planned_orders "C" ≠ totalFor res2.planned_orders "C" := by
  constructor
  · norm_num [MrpCalculator.group_demands_by_component, c4Demands,
      mapAppendEntry, str_pc, str_cp]
  refine ⟨⟨[⟨0, "P", 10, 10, 10, .Production, none, []⟩,
            ⟨1, "C", 5, 5, 5, .Production, none, []⟩,
            ⟨2, "C", 15, 10, 10, .Production, none, []⟩],
           [(0, [⟨1, 10, ["P"]⟩]), (1, [⟨2, 5, ["C"]⟩]), (2, [])]⟩,
          ⟨[⟨0, "C", 5, 5, 5, .Production, none, []⟩,
            ⟨1, "C", 5, 10, 10, .Production, none, []⟩,
            ⟨2, "P", 10, 10, 10, .Production, none, []⟩],
           [(0, [⟨2, 5, ["C"]⟩]), (1, []), (2, [⟨1, 10, ["P"]⟩])]⟩,
          ?_, ?_, ?_, ?_, ?_⟩
  case _ =>
    norm_num [str_pc, str_cp,
      MrpCalculator.calculate, c4Calc, c4Graph, c4Demands, l4lConfig,
      MrpCalculator.get_max_planning_horizon,
      BucketingCalculator.create_time_buckets,
      MrpCalculator.group_demands_by_component,
      MrpCalculator.group_supplies_by_component,
      MrpCalculator.create_inventory_map, MrpCalculator.topological_sort,
      MrpCalculator.calcFuel, MrpCalculator.calcLoop,
      MrpCalculator.calculate_component_mrp,
      MrpCalculator.create_component_time_buckets, MrpCalculator.assignIds,
      MrpCalculator.explode_bom, MrpCalculator.mkDependentDemand,
      BomGraph.findChildren, NettingCalculator.calculate,
      NettingCalculator.nettingGo, NettingCalculator.grossAt,
      NettingCalculator.receiptAt, LotSizingCalculator.apply,
      LotSizingCalculator.lot_for_lot, LotSizingCalculator.determineOrderType,
      MrpConfig.adjust_order_quantity, MrpConfig.needs_mrp,
      WorkCalendar.subtractWorkingDays, WorkCalendar.new24_7, PlannedOrder.mk',
      mapFind?, mapAppendEntry, mapInsertReplace, sortDates, insertSorted,
      PeggingCalculator.perform, PeggingCalculator.performGo,
      PeggingCalculator.trace_demand_source, PeggingCalculator.traceGo,
      PeggingCalculator.matchingDemands]
  case _ =>
    norm_num [str_pc, str_cp,
      MrpCalculator.calculate, c4Calc, c4Graph, c4Demands, l4lConfig,
      MrpCalculator.get_max_planning_horizon,
      BucketingCalculator.create_time_buckets,
      MrpCalculator.group_demands_by_component,
      MrpCalculator.group_supplies_by_component,
      MrpCalculator.create_inventory_map, MrpCalculator.topological_sort,
      MrpCalculator.calcFuel, MrpCalculator.calcLoop,
      MrpCalculator.calculate_component_mrp,
      MrpCalculator.create_component_time_buckets, MrpCalculator.assignIds,
      MrpCalculator.explode_bom, MrpCalculator.mkDependentDemand,
      BomGraph.findChildren, NettingCalculator.calculate,
      NettingCalculator.nettingGo, NettingCalculator.grossAt,
      NettingCalculator.receiptAt, LotSizingCalculator.apply,
      LotSizingCalculator.lot_for_lot, LotSizingCalculator.determineOrderType,
      MrpConfig.adjust_order_quantity, MrpConfig.needs_mrp,
      WorkCalendar.subtractWorkingDays, WorkCalendar.new24_7, PlannedOrder.mk',
      mapFind?, mapAppendEntry, mapInsertReplace, sortDates, insertSorted,
      PeggingCalculator.perform, PeggingCalculator.performGo,
      PeggingCalculator.trace_demand_source, PeggingCalculator.traceGo,
      PeggingCalculator.matchingDemands]
  case _ => norm_num [totalFor, str_pc, str_cp]
  case _ => norm_num [totalFor, str_pc, str_cp]
  case _ => norm_num [totalFor, str_pc, str_cp]

end PipelineProofs

end NexusMRP
